import Mathlib

/-!
Shallow embedding of the apu-code-collab-api backend pieces that the claims
touch: the GitHub repository listing/hydration pipeline
(src/src/github/service.py, `get_all_local_repos_hydrated` and
`add_skills_to_repo`) and the authentication service
(src/src/auth/service.py).

Modelling conventions:
* Database rows become Lean structures; relationship collections
  (`repo.programming_languages`, `user.preferred_frameworks`, ...) are list
  fields, matching the ORM navigation-property view the source code uses.
  The `User.preferred_programming_languages` / `User.preferred_frameworks`
  relationships are declared by `back_populates` on the ProgrammingLanguage
  and Framework entities in src/src/entities; they are modelled as list
  fields on the user row.
* Timestamps are integers.  `datetime.isoformat` / `datetime.fromisoformat`
  are modelled as a decimal integer codec (the only properties the source
  relies on: serialisation round-trips and is order-preserving).
* SQL `ILIKE` is executed by an explicit LIKE-pattern matcher
  (`%` matches any sequence, `_` any single character, other characters
  match case-insensitively), mirroring what the database does with the
  patterns the code builds.
* The GraphQL HTTP exchange is replaced by its parsed result: a map from the
  fragment index `i` (the code's key `repo_<i>`) to the JSON object (or
  null / absent) GitHub returned for that fragment.  JSON scalar values are
  modelled by `JVal`.
* Fallible code returns `Except`; `AuthenticationError` becomes the
  `AuthError` structure carrying `error_code` and `message`.
-/

namespace ApuCollab

/-- JSON-ish values appearing in hydration payloads. -/
inductive JVal where
  | null
  | str (s : String)
  | num (n : Int)
  | strList (xs : List String)
deriving DecidableEq, Repr

/-- A row of the `programming_languages` table (src/src/entities/programming_language.py). -/
structure LanguageRow where
  id : String
  name : String
deriving DecidableEq, Repr

/-- A row of the `frameworks` table (src/src/entities/framework.py). -/
structure FrameworkRow where
  id : String
  name : String
  added_by : Option String
deriving DecidableEq, Repr

/-- A row of the `users` table (src/src/entities/user.py), with the
relationship collections declared via `back_populates` on the skill
entities. -/
structure UserRow where
  id : String
  apu_id : String
  first_name : String
  last_name : String
  role : String
  password_hash : String
  github_username : Option String
  preferred_programming_languages : List LanguageRow
  preferred_frameworks : List FrameworkRow
deriving DecidableEq, Repr

/-- A row of the `github_repositories` table
(src/src/entities/github_repository.py), joined with its owner
(`GithubRepository.user`, loaded via `selectinload`) and its skill
relationship collections. -/
structure RepoRow where
  id : String
  name : String
  description : Option String
  created_at : Int
  programming_languages : List LanguageRow
  frameworks : List FrameworkRow
  user : UserRow
deriving DecidableEq, Repr

/-- `GithubRepository.skill_names` property: language names then framework
names. -/
def RepoRow.skill_names (r : RepoRow) : List String :=
  r.programming_languages.map (fun l => l.name) ++ r.frameworks.map (fun f => f.name)

/-! ### SQL LIKE / ILIKE pattern matching

`col.ilike(pat)` compares the column value against `pat` case-insensitively,
with `%` matching any character sequence and `_` matching exactly one
character. -/

/-- LIKE-pattern matching on character lists, first argument the pattern,
second the value, with explicit recursion fuel (every step shortens the
pattern or the value, so `pattern.length + value.length + 1` steps always
reach a base case; the fuel only makes the recursion structural). -/
def likeMatchFuel : Nat → List Char → List Char → Bool
  | 0, _, _ => false
  | fuel + 1, pat, s =>
    match pat, s with
    | [], [] => true
    | '%' :: ps, [] => likeMatchFuel fuel ps []
    | '%' :: ps, c :: cs => likeMatchFuel fuel ps (c :: cs) || likeMatchFuel fuel ('%' :: ps) cs
    | '_' :: ps, _ :: cs => likeMatchFuel fuel ps cs
    | p :: ps, c :: cs => p.toLower == c.toLower && likeMatchFuel fuel ps cs
    | _ :: _, [] => false
    | [], _ :: _ => false

/-- LIKE-pattern matching: `%` matches any sequence, `_` any single
character, anything else matches case-insensitively. -/
def likeMatch (pat s : List Char) : Bool :=
  likeMatchFuel (pat.length + s.length + 1) pat s

/-- `value ILIKE pattern` for strings. -/
def sqlIlike (value pattern : String) : Bool :=
  likeMatch pattern.data value.data

/-! ### Relevance score and filters of `get_all_local_repos_hydrated` -/

/-- `user_lang_ids = [pl.id for pl in user.preferred_programming_languages]`. -/
def userLangIds (u : UserRow) : List String :=
  u.preferred_programming_languages.map (fun pl => pl.id)

/-- `user_fw_ids = [fw.id for fw in user.preferred_frameworks]`. -/
def userFwIds (u : UserRow) : List String :=
  u.preferred_frameworks.map (fun fw => fw.id)

/-- `has_preferences = bool(user_lang_ids or user_fw_ids)`. -/
def hasPreferences (u : UserRow) : Bool :=
  !(userLangIds u).isEmpty || !(userFwIds u).isEmpty

/-- The SQL `relevance_score` expression: when the user has preferences,
`CASE WHEN (match_lang OR match_fw) THEN 1 ELSE 0 END` where `match_lang`
and `match_fw` are EXISTS subqueries over the repository's skill link
tables; otherwise the literal 0. -/
def sqlRelevanceScore (u : UserRow) (r : RepoRow) : Int :=
  if hasPreferences u then
    if r.programming_languages.any (fun l => (userLangIds u).contains l.id)
        || r.frameworks.any (fun f => (userFwIds u).contains f.id)
    then 1 else 0
  else 0

/-- The relevance score recomputed in Python for the cursor string:
`l_score = 0`, and when the user has preferences and the id sets are not
disjoint it becomes 1 (`set.isdisjoint` against the user id lists). -/
def pyCursorScore (u : UserRow) (r : RepoRow) : Int :=
  if hasPreferences u
      && (!(((r.programming_languages.map (fun s => s.id)).inter (userLangIds u)).isEmpty)
          || !(((r.frameworks.map (fun f => f.id)).inter (userFwIds u)).isEmpty))
  then 1 else 0

/-- Python truthiness of an optional string (`if search:` and friends). -/
def pyTruthyStr : Option String → Bool
  | none => false
  | some s => !s.data.isEmpty

/-- Python truthiness of an optional list (`if skills:`). -/
def pyTruthyList : Option (List String) → Bool
  | none => false
  | some l => !l.isEmpty

/-- The search / owner / skills WHERE clauses of
`get_all_local_repos_hydrated`, applied in source order. -/
def applyFilters (db : List RepoRow) (search : Option String)
    (skills : Option (List String)) (apu_id : Option String)
    (github_username : Option String) : List RepoRow :=
  let q := db
  let q := if pyTruthyStr search then
      q.filter (fun r => sqlIlike r.name ("%" ++ search.getD "" ++ "%")) else q
  let q := if pyTruthyStr apu_id then
      q.filter (fun r => r.user.apu_id == apu_id.getD "") else q
  let q := if pyTruthyStr github_username then
      q.filter (fun r => r.user.github_username == some (github_username.getD "")) else q
  let q := if pyTruthyList skills then
      q.filter (fun r =>
        r.programming_languages.any (fun l => (skills.getD []).contains l.name)
          || r.frameworks.any (fun f => (skills.getD []).contains f.name)) else q
  q

/-! ### Cursor strings -/

/-- One decimal digit as a character. -/
def digitToChar : Nat → Char
  | 0 => '0' | 1 => '1' | 2 => '2' | 3 => '3' | 4 => '4'
  | 5 => '5' | 6 => '6' | 7 => '7' | 8 => '8' | 9 => '9'
  | _ => '*'

/-- Character back to decimal digit, if it is one (code points 48–57). -/
def charToDigit (c : Char) : Option Nat :=
  if 48 ≤ c.toNat ∧ c.toNat ≤ 57 then some (c.toNat - 48) else none

/-- Decimal digits of a positive natural number, most significant first,
with explicit recursion fuel (`n` itself always suffices). -/
def natToCharsAux : Nat → Nat → List Char
  | 0, _ => []
  | fuel + 1, n =>
    if n = 0 then [] else natToCharsAux fuel (n / 10) ++ [digitToChar (n % 10)]

/-- Decimal digits of a natural number, most significant first. -/
def natToChars (n : Nat) : List Char :=
  if n = 0 then ['0'] else natToCharsAux n n

/-- Serialisation of an integer, as Python `str`. -/
def pyIntToString (n : Int) : String :=
  if n < 0 then ⟨'-' :: natToChars n.natAbs⟩ else ⟨natToChars n.natAbs⟩

/-- Parse a digit run as a natural number (most significant first). -/
def charsToNat : List Char → Option Nat
  | [] => none
  | cs => cs.foldl (fun acc c => acc.bind (fun a => (charToDigit c).map (fun d => a * 10 + d))) (some 0)

/-- Parse an integer, as Python `int` (a ValueError becomes `none`). -/
def pyParseInt (s : String) : Option Int :=
  match s.data with
  | [] => none
  | c :: cs =>
    if c = '-' then (charsToNat cs).map (fun n => -(Int.ofNat n))
    else (charsToNat (c :: cs)).map (fun n => Int.ofNat n)

/-- `datetime.isoformat` under the integer-timestamp modelling. -/
def pyIsoFormat (t : Int) : String := pyIntToString t

/-- `datetime.fromisoformat` under the integer-timestamp modelling
(a ValueError becomes `none`). -/
def pyFromIso (s : String) : Option Int := pyParseInt s

/-- Python `str.split(sep)` for a one-character separator, on character
lists.  `"".split(sep) == [""]`. -/
def pySplitChar (sep : Char) : List Char → List (List Char)
  | [] => [[]]
  | c :: cs =>
    if c = sep then [] :: pySplitChar sep cs
    else
      match pySplitChar sep cs with
      | [] => [[c]]
      | p :: ps => (c :: p) :: ps

/-- Python `s.split("|")`-style splitting of a string. -/
def pySplit (s : String) (sep : Char) : List String :=
  (pySplitChar sep s.data).map (fun cs => ⟨cs⟩)

/-- Cursor parsing of `get_all_local_repos_hydrated`: split on `"|"`; a
three-part cursor is `score|timestamp|id`, anything else is treated as a
legacy `timestamp|id` cursor with score 0.  A ValueError or IndexError
(caught in the source, which then skips the cursor filter) becomes
`none`. -/
def parseCursor (cursor : String) : Option (Int × Int × String) :=
  let parts := pySplit cursor '|'
  if parts.length = 3 then
    match pyParseInt (parts.getD 0 ""), pyFromIso (parts.getD 1 "") with
    | some s, some t => some (s, t, parts.getD 2 "")
    | _, _ => none
  else
    match parts.get? 1 with
    | some i1 => (pyFromIso (parts.getD 0 "")).map (fun t => (0, t, i1))
    | none => none

/-- The cursor string built for the last repository of a full page:
`f"{l_score}|{last_repo.created_at.isoformat()}|{last_repo.id}"`. -/
def mkCursor (u : UserRow) (last : RepoRow) : String :=
  pyIntToString (pyCursorScore u last) ++ "|" ++ pyIsoFormat last.created_at ++ "|" ++ last.id

/-- Lexicographic comparison of character lists (head by code point). -/
def charsLtb : List Char → List Char → Bool
  | [], [] => false
  | [], _ :: _ => true
  | _ :: _, [] => false
  | a :: as, b :: bs => decide (a < b) || (a == b && charsLtb as bs)

/-- SQL string comparison, modelled as the lexicographic code-point order
(the order used for the `id < cursor_id` comparison; ids are cuids, plain
ASCII). -/
def strLtb (a b : String) : Bool :=
  charsLtb a.data b.data

/-- The cursor WHERE clause: score strictly lower, or same score and older
timestamp, or same score, same timestamp and smaller id. -/
def cursorWhere (u : UserRow) (cs ct : Int) (cid : String) (r : RepoRow) : Bool :=
  sqlRelevanceScore u r < cs
    || (sqlRelevanceScore u r == cs && r.created_at < ct)
    || (sqlRelevanceScore u r == cs && r.created_at == ct && strLtb r.id cid)

/-! ### Ordering and page fetch -/

/-- The composite sort key `(relevance_score, created_at, id)`; the query
orders by each component descending.  (When the user has no preferences the
source omits the `relevance_score` ORDER BY term, but the score is then the
literal 0 on every row, so the resulting order is the same.) -/
def keyOf (u : UserRow) (r : RepoRow) : Int × Int × String :=
  (sqlRelevanceScore u r, r.created_at, r.id)

/-- Strict lexicographic comparison of sort keys. -/
def keyLtb : Int × Int × String → Int × Int × String → Bool
  | (s1, t1, i1), (s2, t2, i2) =>
    s1 < s2 || (s1 == s2 && (t1 < t2 || (t1 == t2 && strLtb i1 i2)))

/-- `a` may precede `b` in the descending order (its key is not lower). -/
def rowLe (u : UserRow) (a b : RepoRow) : Bool :=
  !keyLtb (keyOf u a) (keyOf u b)

/-- Insert into a sorted list, keeping existing elements first on ties
(stable). -/
def orderedInsert {α : Type} (le : α → α → Bool) (a : α) : List α → List α
  | [] => [a]
  | b :: l => if le a b then a :: b :: l else b :: orderedInsert le a l

/-- Stable insertion sort; models the SQL ORDER BY (any comparison sort
gives the same result on the pairwise-distinct sort keys the queries
use). -/
def insertionSort {α : Type} (le : α → α → Bool) : List α → List α
  | [] => []
  | a :: l => orderedInsert le a (insertionSort le l)

/-- `ORDER BY relevance_score DESC, created_at DESC, id DESC`. -/
def sortRepos (u : UserRow) (l : List RepoRow) : List RepoRow :=
  insertionSort (rowLe u) l

/-- The database page of `get_all_local_repos_hydrated`: filters, cursor
WHERE clause (skipped when the cursor is falsy or fails to parse), order,
limit. -/
def fetchDbPage (db : List RepoRow) (u : UserRow) (limit : Nat)
    (search : Option String) (skills : Option (List String))
    (apu_id : Option String) (github_username : Option String)
    (cursor : Option String) : List RepoRow :=
  let base := applyFilters db search skills apu_id github_username
  let filtered :=
    match cursor with
    | none => base
    | some c =>
      if c.data.isEmpty then base
      else
        match parseCursor c with
        | some (cs, ct, cid) => base.filter (cursorWhere u cs ct cid)
        | none => base
  (sortRepos u filtered).take limit

/-! ### Hydration -/

/-- A GraphQL repository object: the parsed JSON object for one
`repo_<index>` key. -/
abbrev GhObj : Type := List (String × JVal)

/-- Python truthiness of `data.get(f"repo_{index}")`: present, non-null and
a non-empty object. -/
def ghTruthy : Option GhObj → Bool
  | none => false
  | some o => !o.isEmpty

/-- Insertion into a Python dict (last write wins, first write fixes the
position). -/
def dictInsert (d : List (String × JVal)) (k : String) (v : JVal) : List (String × JVal) :=
  if d.any (fun p => p.1 == k) then
    d.map (fun p => if p.1 == k then (k, v) else p)
  else d ++ [(k, v)]

/-- A Python dict literal built from a pair list in order. -/
def pyDict (pairs : List (String × JVal)) : List (String × JVal) :=
  pairs.foldl (fun d p => dictInsert d p.1 p.2) []

/-- Optional string as a JSON value. -/
def optStr : Option String → JVal
  | none => JVal.null
  | some s => JVal.str s

/-- The database fields added to each hydrated item. -/
def dbFields (r : RepoRow) : List (String × JVal) :=
  [("db_repo_id", JVal.str r.id),
   ("db_repo_description", optStr r.description),
   ("db_repo_skills", JVal.strList r.skill_names),
   ("db_owner_id", JVal.str r.user.id),
   ("db_owner_first_name", JVal.str r.user.first_name),
   ("db_owner_last_name", JVal.str r.user.last_name),
   ("db_owner_apu_id", JVal.str r.user.apu_id)]

/-- `{"db_repo_id": ..., ..., **gh_data}`. -/
def buildItem (r : RepoRow) (gh : GhObj) : List (String × JVal) :=
  pyDict (dbFields r ++ gh)

/-- The hydration loop: for each page index, keep the repository when its
GraphQL entry is truthy, merging the database fields with the GitHub
data. -/
def hydrateItems (page : List RepoRow) (data : Nat → Option GhObj) :
    List (List (String × JVal)) :=
  page.enum.filterMap (fun p =>
    match data p.1 with
    | some o => if o.isEmpty then none else some (buildItem p.2 o)
    | none => none)

/-- The result of `get_all_local_repos_hydrated`. -/
structure PageResult where
  items : List (List (String × JVal))
  next_cursor : Option String
deriving DecidableEq, Repr

/-- `get_all_local_repos_hydrated` (src/src/github/service.py):
fetch the database page; on an empty page return `{"items": [],
"next_cursor": None}`; build the next cursor when the page is full; hydrate
with the GraphQL response `data`. -/
def getAllLocalReposHydrated (db : List RepoRow) (u : UserRow) (limit : Nat)
    (search : Option String) (skills : Option (List String))
    (apu_id : Option String) (github_username : Option String)
    (cursor : Option String) (data : Nat → Option GhObj) : PageResult :=
  let db_repos := fetchDbPage db u limit search skills apu_id github_username cursor
  if db_repos.isEmpty then ⟨[], none⟩
  else
    let next :=
      if db_repos.length = limit then
        match db_repos.getLast? with
        | some last => some (mkCursor u last)
        | none => none
      else none
    ⟨hydrateItems db_repos data, next⟩

/-! ### `add_skills_to_repo` (src/src/github/service.py)

The source iterates `for name in set(skills)`.  Python's set iteration
order is unspecified, so the embedding takes the enumeration `names` of
`set(skills)` as an explicit argument.  Newly created frameworks get their
ids from the supply `freshId` applied to a creation counter (the source
uses a cuid generator).  Because the session autoflushes before each query,
frameworks created earlier in the same call are visible to the later
`ILIKE` lookups, which the embedding reflects by threading the frameworks
table through the fold. -/

/-- The mutable state touched by `add_skills_to_repo`: the frameworks
table and the repository's two skill link collections. -/
structure AddSkillsState where
  frameworks : List FrameworkRow
  repo_languages : List LanguageRow
  repo_frameworks : List FrameworkRow
deriving DecidableEq, Repr

/-- Python `str.strip()`: drop whitespace from both ends. -/
def pyStrip (s : String) : String :=
  ⟨((s.data.dropWhile Char.isWhitespace).reverse.dropWhile Char.isWhitespace).reverse⟩

/-- One iteration of the `for name in set(skills)` loop, also carrying the
count of frameworks created so far. -/
def processSkillName (user_id : String) (languages : List LanguageRow)
    (freshId : Nat → String) (st : AddSkillsState × Nat) (name : String) :
    AddSkillsState × Nat :=
  let clean := pyStrip name
  if clean = "" then st
  else
    match languages.find? (fun l => sqlIlike l.name clean) with
    | some lang =>
      ({ st.1 with repo_languages := st.1.repo_languages ++ [lang] }, st.2)
    | none =>
      match st.1.frameworks.find? (fun f => sqlIlike f.name clean) with
      | some fw =>
        ({ st.1 with repo_frameworks := st.1.repo_frameworks ++ [fw] }, st.2)
      | none =>
        let nf : FrameworkRow := ⟨freshId st.2, clean, some user_id⟩
        (⟨st.1.frameworks ++ [nf], st.1.repo_languages, st.1.repo_frameworks ++ [nf]⟩,
          st.2 + 1)

/-- `add_skills_to_repo`: 404 when the repository id is unknown (raised
before any mutation, so the state is unchanged); otherwise clear both link
collections and process every name of `set(skills)` (enumerated by
`names`).  The returned state holds the final frameworks table and the
repository's final link collections. -/
def add_skills_to_repo (user_id : String) (id : String) (names : List String)
    (languages : List LanguageRow) (frameworks : List FrameworkRow)
    (repos : List RepoRow) (freshId : Nat → String) :
    Except Nat AddSkillsState :=
  match repos.find? (fun r => r.id == id) with
  | none => Except.error 404
  | some _ =>
    Except.ok (names.foldl (processSkillName user_id languages freshId)
      (⟨frameworks, [], []⟩, 0)).1

/-! ### Authentication service (src/src/auth/service.py)

JWTs are modelled structurally: a token is its payload together with the
key and algorithm it was signed with; `jwt.decode` succeeds exactly when
key and algorithm match and the token is unexpired. -/

/-- The claims the service puts into its tokens.  The `type` claim is
`typ` here; a missing claim is `none`. -/
structure JwtPayload where
  id : Option String
  sub : Option String
  role : String
  typ : Option String
  exp : Int
deriving DecidableEq, Repr

/-- A signed JWT. -/
structure Jwt where
  payload : JwtPayload
  key : String
  alg : String
deriving DecidableEq, Repr

/-- `AuthenticationError` reduced to the fields the claims mention. -/
structure AuthError where
  error_code : String
  message : String
deriving DecidableEq, Repr

/-- `TokenData` (src/src/auth/models.py). -/
structure TokenData where
  user_id : Option String
  apu_id : Option String
  token_type : String
deriving DecidableEq, Repr

/-- `TokenResponse`, with the fields the service constructs
(src/src/auth/service.py line 203). -/
structure TokenResponse where
  access_token : Jwt
  refresh_token : Jwt
  token_type : String
deriving DecidableEq, Repr

/-- `create_access_token`: payload `{id, sub, role, type: "access",
exp: now + expires_delta}` signed with the configured secret and
algorithm. -/
def create_access_token (user_id apu_id role : String) (expires_delta now : Int)
    (secret alg : String) : Jwt :=
  ⟨⟨some user_id, some apu_id, role, some "access", now + expires_delta⟩, secret, alg⟩

/-- `create_refresh_token`: as `create_access_token` but with
`type: "refresh"`. -/
def create_refresh_token (user_id apu_id role : String) (expires_delta now : Int)
    (secret alg : String) : Jwt :=
  ⟨⟨some user_id, some apu_id, role, some "refresh", now + expires_delta⟩, secret, alg⟩

inductive JwtError where
  | expired
  | invalid
deriving DecidableEq, Repr

/-- `jwt.decode(token, key, algorithms=[alg])`: signature/issuer check,
then the `exp <= now` expiry check of PyJWT. -/
def jwtDecode (t : Jwt) (key alg : String) (now : Int) : Except JwtError JwtPayload :=
  if t.key = key ∧ t.alg = alg then
    if t.payload.exp ≤ now then Except.error JwtError.expired
    else Except.ok t.payload
  else Except.error JwtError.invalid

/-- Python truthiness of an optional string claim, as used by
`all([user_id, apu_id])`. -/
def pyTruthyClaim : Option String → Bool
  | none => false
  | some s => !s.data.isEmpty

/-- `verify_token`.  The two `raise AuthenticationError(...)` statements
inside the `try` block (INVALID_TOKEN for a bad payload,
INVALID_TOKEN_TYPE for a type mismatch) are caught by the function's own
blanket `except Exception` clause and re-raised as
`AuthenticationError(error_code="TOKEN_VERIFICATION_FAILED")`, which is
what the embedding returns in those two cases. -/
def verify_token (secret alg : String) (now : Int) (token : Jwt)
    (expected_type : String) : Except AuthError TokenData :=
  match jwtDecode token secret alg now with
  | Except.error JwtError.expired =>
    Except.error ⟨"TOKEN_EXPIRED", "Token has expired"⟩
  | Except.error JwtError.invalid =>
    Except.error ⟨"INVALID_TOKEN", "Invalid token"⟩
  | Except.ok payload =>
    let token_type := payload.typ.getD "access"
    if !(pyTruthyClaim payload.id && pyTruthyClaim payload.sub) then
      Except.error ⟨"TOKEN_VERIFICATION_FAILED", "Token verification failed"⟩
    else if token_type ≠ expected_type then
      Except.error ⟨"TOKEN_VERIFICATION_FAILED", "Token verification failed"⟩
    else Except.ok ⟨payload.id, payload.sub, token_type⟩

/-- A row of the `refresh_tokens` table (src/src/entities/refresh_token.py). -/
structure RefreshTokenRow where
  id : String
  user_id : String
  token : Jwt
  revoked : Bool
  expires_at : Int
deriving DecidableEq, Repr

/-- `user_service.get_user_by_apu_id`. -/
def get_user_by_apu_id (users : List UserRow) (apu_id : String) : Option UserRow :=
  users.find? (fun u => u.apu_id == apu_id)

/-- `refresh_access_token`: verify the refresh token, look up the
non-revoked database row for it, check expiry against the current time,
look up the user, and issue a new access token next to the unchanged
refresh token.  The function performs no database write. -/
def refresh_access_token (secret alg : String) (accessDelta now : Int)
    (db : List RefreshTokenRow) (users : List UserRow) (old_token : Jwt) :
    Except AuthError TokenResponse :=
  match verify_token secret alg now old_token "refresh" with
  | Except.error e => Except.error e
  | Except.ok token_data =>
    if token_data.apu_id = none then
      Except.error ⟨"TOKEN_REVOKED", "Refresh token is invalid or revoked"⟩
    else
      match db.find? (fun row => row.token == old_token && row.revoked == false) with
      | none => Except.error ⟨"TOKEN_REVOKED", "Refresh token is invalid or revoked"⟩
      | some db_token =>
        if db_token.expires_at < now then
          Except.error ⟨"TOKEN_EXPIRED", "Refresh token has expired"⟩
        else
          match get_user_by_apu_id users (token_data.apu_id.getD "") with
          | none => Except.error ⟨"AUTHENTICATION_FAILED", "Could not validate user"⟩
          | some user =>
            Except.ok ⟨create_access_token user.id user.apu_id user.role accessDelta now secret alg,
              old_token, "Bearer"⟩

/-- `authenticate_user`.  The password check `security.verify_password`
(bcrypt) is abstracted as the function argument `vp`.  The second component
counts the dummy hash verifications performed against the timing side
channel.  The function performs no database write. -/
def authenticate_user (users : List UserRow) (vp : String → String → Bool)
    (apu_id password : String) : Except AuthError UserRow × Nat :=
  match get_user_by_apu_id users apu_id with
  | none => (Except.error ⟨"AUTHENTICATION_FAILED", "Invalid Email or Password"⟩, 1)
  | some user =>
    if vp password user.password_hash then (Except.ok user, 0)
    else (Except.error ⟨"AUTHENTICATION_FAILED", "Invalid Email or Password"⟩, 0)

/-! ### Spec-side definitions

The following definitions phrase what the claims say in the spec's own
words; the theorems below compare them with the embedded code. -/

/-- The rows of the page kept by the hydration loop (those whose GraphQL
entry is truthy), paired with their page index. -/
def keptPairs (page : List RepoRow) (data : Nat → Option GhObj) :
    List (Nat × RepoRow) :=
  page.enum.filter (fun p => ghTruthy (data p.1))

/-- The kept rows themselves, in page order. -/
def keptRows (page : List RepoRow) (data : Nat → Option GhObj) : List RepoRow :=
  (keptPairs page data).map (fun p => p.2)

/-- Spec-side item list: one merged item per kept row, in page order. -/
def specItems (page : List RepoRow) (data : Nat → Option GhObj) :
    List (List (String × JVal)) :=
  (keptPairs page data).map (fun p => buildItem p.2 ((data p.1).getD []))

/-- The item list exactly as claim C5 words it: every repository whose
GraphQL entry is present and non-null is kept (including a non-null empty
object). -/
def literalItems (page : List RepoRow) (data : Nat → Option GhObj) :
    List (List (String × JVal)) :=
  page.enum.filterMap (fun p => (data p.1).map (fun o => buildItem p.2 o))

/-- The repository shares a preferred programming language or framework
with the user. -/
def sharesPreference (u : UserRow) (r : RepoRow) : Bool :=
  r.programming_languages.any (fun l => (userLangIds u).contains l.id)
    || r.frameworks.any (fun f => (userFwIds u).contains f.id)

/-- The distinct names of `skills`, whitespace-stripped, empties dropped
(the claim's description of the names `add_skills_to_repo` processes). -/
def cleanNames (names : List String) : List String :=
  (names.map pyStrip).filter (fun c => !(c == ""))

/-- Spec-side derived language links: each clean name that ILIKE-matches an
existing ProgrammingLanguage row, in processing order. -/
def derivedLanguages (languages : List LanguageRow) (names : List String) :
    List LanguageRow :=
  (cleanNames names).filterMap (fun n => languages.find? (fun l => sqlIlike l.name n))

/-- Spec-side framework derivation step over a clean name: names matching a
language contribute nothing; otherwise match the frameworks known so far or
create a new framework.  State: (frameworks table, linked frameworks,
creation counter). -/
def specFwStep (user_id : String) (languages : List LanguageRow)
    (freshId : Nat → String)
    (st : List FrameworkRow × List FrameworkRow × Nat) (n : String) :
    List FrameworkRow × List FrameworkRow × Nat :=
  if (languages.find? (fun l => sqlIlike l.name n)).isSome then st
  else
    match st.1.find? (fun f => sqlIlike f.name n) with
    | some fw => (st.1, st.2.1 ++ [fw], st.2.2)
    | none =>
      let nf : FrameworkRow := ⟨freshId st.2.2, n, some user_id⟩
      (st.1 ++ [nf], st.2.1 ++ [nf], st.2.2 + 1)

/-- Spec-side framework fold over all clean names. -/
def specFwFold (user_id : String) (languages : List LanguageRow)
    (freshId : Nat → String) (frameworks : List FrameworkRow)
    (names : List String) : List FrameworkRow × List FrameworkRow × Nat :=
  (cleanNames names).foldl (specFwStep user_id languages freshId)
    (frameworks, [], 0)

/-- Spec-side derived framework links. -/
def derivedFrameworks (user_id : String) (languages : List LanguageRow)
    (freshId : Nat → String) (frameworks : List FrameworkRow)
    (names : List String) : List FrameworkRow :=
  (specFwFold user_id languages freshId frameworks names).2.1

/-- Spec-side final frameworks table. -/
def derivedFwTable (user_id : String) (languages : List LanguageRow)
    (freshId : Nat → String) (frameworks : List FrameworkRow)
    (names : List String) : List FrameworkRow :=
  (specFwFold user_id languages freshId frameworks names).1

/-- Case-insensitive string equality (character-wise lowercase), the
matcher claim C9 literally describes. -/
def ciEq (a b : String) : Bool :=
  a.data.map Char.toLower == b.data.map Char.toLower

/-- Derived language links under the claim-literal case-insensitive
matcher. -/
def ciDerivedLanguages (languages : List LanguageRow) (names : List String) :
    List LanguageRow :=
  (cleanNames names).filterMap (fun n => languages.find? (fun l => ciEq l.name n))

/-! ### Concrete inputs used by the witnesses and counterexamples -/

/-- A user without skill preferences. -/
def wUserPlain : UserRow :=
  ⟨"u1", "TP000001", "Ada", "Byron", "student", "hash-hash-hash", none, [], []⟩

/-- A user who prefers the programming language `pl1`. -/
def wUserPref : UserRow :=
  ⟨"u2", "TP000002", "Kurt", "Friedrich", "student", "hash-hash-hash", none,
    [⟨"pl1", "Python"⟩], []⟩

/-- An older repository tagged with language `pl1`. -/
def wRepoOld : RepoRow :=
  ⟨"ra", "alpha", none, 1, [⟨"pl1", "Python"⟩], [], wUserPlain⟩

/-- A newer repository with no skills. -/
def wRepoNew : RepoRow :=
  ⟨"rb", "beta", some "desc", 5, [], [], wUserPlain⟩

/-- A two-repository database. -/
def wDb : List RepoRow := [wRepoOld, wRepoNew]

/-- A concrete refresh token for `wUserPlain`, issued at time 0 for 100
time units with secret `"k"`. -/
def wToken : Jwt := create_refresh_token "u1" "TP000001" "student" 100 0 "k" "HS256"

/-- The stored, non-revoked database row for `wToken`. -/
def wRefreshRow : RefreshTokenRow := ⟨"rt1", "u1", wToken, false, 100⟩

/-! ## Order facts about the sort key -/

/-- The sort key seen as a value of the lexicographic product order. -/
def toLexKey (k : Int × Int × String) : Int ×ₗ (Int ×ₗ String) :=
  toLex (k.1, toLex (k.2.1, k.2.2))

/-- `a` strictly precedes `b` in the descending `(score, created_at, id)`
order. -/
def strictBefore (u : UserRow) (a b : RepoRow) : Prop :=
  keyLtb (keyOf u b) (keyOf u a) = true

theorem charsLtbIffLex : ∀ l1 l2 : List Char,
    charsLtb l1 l2 = true ↔ List.Lex (fun x y : Char => x < y) l1 l2
  | [], [] => by
    simp only [charsLtb, Bool.false_eq_true, false_iff]
    intro h
    cases h
  | [], b :: bs => by
    simp only [charsLtb, true_iff]
    exact List.Lex.nil
  | a :: as, [] => by
    simp only [charsLtb, Bool.false_eq_true, false_iff]
    intro h
    cases h
  | a :: as, b :: bs => by
    simp only [charsLtb, Bool.or_eq_true, Bool.and_eq_true, decide_eq_true_eq,
      beq_iff_eq]
    constructor
    · rintro (h | ⟨rfl, h⟩)
      · exact List.Lex.rel h
      · exact List.Lex.cons ((charsLtbIffLex as bs).mp h)
    · intro h
      cases h with
      | cons h2 => exact Or.inr ⟨rfl, (charsLtbIffLex as bs).mpr h2⟩
      | rel h2 => exact Or.inl h2

theorem strLtbIff (a b : String) : strLtb a b = true ↔ a < b := by
  rw [strLtb, charsLtbIffLex]
  exact String.lt_iff_toList_lt.symm

theorem keyLtb_iff_lex (a b : Int × Int × String) :
    keyLtb a b = true ↔ toLexKey a < toLexKey b := by
  obtain ⟨s1, t1, i1⟩ := a
  obtain ⟨s2, t2, i2⟩ := b
  simp only [keyLtb, toLexKey, Prod.Lex.lt_iff, Bool.or_eq_true, Bool.and_eq_true,
    decide_eq_true_eq, beq_iff_eq, strLtbIff]

theorem toLexKey_inj {a b : Int × Int × String} (h : toLexKey a = toLexKey b) : a = b := by
  obtain ⟨s1, t1, i1⟩ := a
  obtain ⟨s2, t2, i2⟩ := b
  simp only [toLexKey] at h
  have h1 := toLex.injective h
  rw [Prod.mk.injEq] at h1
  obtain ⟨hs, h2⟩ := h1
  have h3 := toLex.injective h2
  rw [Prod.mk.injEq] at h3
  obtain ⟨ht, hi⟩ := h3
  subst hs
  subst ht
  subst hi
  rfl

theorem keyLtb_irrefl (a : Int × Int × String) : keyLtb a a = false := by
  rw [Bool.eq_false_iff]
  intro h
  exact lt_irrefl _ (keyLtb_iff_lex a a |>.mp h)

theorem keyLtb_asymm {a b : Int × Int × String} (h : keyLtb a b = true) :
    keyLtb b a = false := by
  rw [Bool.eq_false_iff]
  intro h2
  exact lt_asymm (keyLtb_iff_lex a b |>.mp h) (keyLtb_iff_lex b a |>.mp h2)

theorem keyLtb_of_not {a b : Int × Int × String} (hne : a ≠ b)
    (h : keyLtb a b = false) : keyLtb b a = true := by
  rcases lt_or_ge (toLexKey a) (toLexKey b) with hlt | hge
  · exact absurd (keyLtb_iff_lex a b |>.mpr hlt) (by simp [h])
  · rcases lt_or_eq_of_le hge with hlt | heq
    · exact keyLtb_iff_lex b a |>.mpr hlt
    · exact absurd (toLexKey_inj heq.symm) hne

theorem rowLe_trans (u : UserRow) (a b c : RepoRow) (hab : rowLe u a b = true)
    (hbc : rowLe u b c = true) : rowLe u a c = true := by
  simp only [rowLe, Bool.not_eq_true'] at hab hbc ⊢
  rw [Bool.eq_false_iff]
  intro hac
  have hac' := keyLtb_iff_lex _ _ |>.mp hac
  rcases lt_or_ge (toLexKey (keyOf u a)) (toLexKey (keyOf u b)) with h1 | h1
  · exact absurd (keyLtb_iff_lex _ _ |>.mpr h1) (by simp [hab])
  · have h2 : toLexKey (keyOf u b) < toLexKey (keyOf u c) := lt_of_le_of_lt h1 hac'
    exact absurd (keyLtb_iff_lex _ _ |>.mpr h2) (by simp [hbc])

theorem rowLe_total (u : UserRow) (a b : RepoRow) :
    (rowLe u a b || rowLe u b a) = true := by
  simp only [rowLe, Bool.or_eq_true, Bool.not_eq_true']
  by_contra h
  push_neg at h
  simp only [Bool.ne_false_iff] at h
  obtain ⟨h1, h2⟩ := h
  exact lt_asymm (keyLtb_iff_lex _ _ |>.mp h1) (keyLtb_iff_lex _ _ |>.mp h2)

/-! ## Generic list lemmas -/

theorem memOfGetLastEq {α : Type} {l : List α} {x : α} (h : l.getLast? = some x) :
    x ∈ l := by
  have hne : l ≠ [] := by rintro rfl; simp at h
  rw [List.getLast?_eq_getLast l hne] at h
  cases h
  exact List.getLast_mem hne

theorem pairwiseRelGetLast {α : Type} {R : α → α → Prop} :
    ∀ (l : List α), List.Pairwise R l → ∀ x : α, l.getLast? = some x →
      ∀ a ∈ l, a = x ∨ R a x
  | [], _, x, hx => by simp at hx
  | [b], _, x, hx => by
    simp only [List.getLast?_singleton, Option.some.injEq] at hx
    subst hx
    intro a ha
    simp only [List.mem_singleton] at ha
    exact Or.inl ha
  | b :: c :: t, hp, x, hx => by
    rw [List.getLast?_cons_cons] at hx
    intro a ha
    rcases List.mem_cons.mp ha with rfl | ha2
    · exact Or.inr ((List.pairwise_cons.mp hp).1 x (memOfGetLastEq hx))
    · exact pairwiseRelGetLast (c :: t) (List.pairwise_cons.mp hp).2 x hx a ha2

theorem eqOfPermOfPairwiseAsymm {α : Type} {R : α → α → Prop}
    (hasym : ∀ a b, R a b → ¬R b a) :
    ∀ (l₁ l₂ : List α), l₁.Perm l₂ → List.Pairwise R l₁ → List.Pairwise R l₂ →
      l₁ = l₂
  | [], l₂, hperm, _, _ => (List.perm_nil.mp hperm.symm).symm
  | a :: t₁, l₂, hperm, hp₁, hp₂ => by
    match l₂ with
    | [] => exact absurd hperm (by simp)
    | b :: t₂ =>
      have hab : a = b := by
        by_contra hne
        have ha2 : a ∈ b :: t₂ := hperm.mem_iff.mp (List.mem_cons_self a t₁)
        have hb1 : b ∈ a :: t₁ := hperm.symm.mem_iff.mp (List.mem_cons_self b t₂)
        have hat : a ∈ t₂ := by
          rcases List.mem_cons.mp ha2 with h | h
          · exact absurd h hne
          · exact h
        have hbt : b ∈ t₁ := by
          rcases List.mem_cons.mp hb1 with h | h
          · exact absurd h.symm hne
          · exact h
        exact hasym a b ((List.pairwise_cons.mp hp₁).1 b hbt)
          ((List.pairwise_cons.mp hp₂).1 a hat)
      subst hab
      have htperm : t₁.Perm t₂ := hperm.cons_inv
      have := eqOfPermOfPairwiseAsymm hasym t₁ t₂ htperm
        (List.pairwise_cons.mp hp₁).2 (List.pairwise_cons.mp hp₂).2
      rw [this]

/-! ## Sortedness of the fetched pages -/

theorem orderedInsertPerm {α : Type} (le : α → α → Bool) (a : α) :
    ∀ l : List α, (orderedInsert le a l).Perm (a :: l)
  | [] => List.Perm.refl _
  | b :: l => by
    unfold orderedInsert
    split
    · exact List.Perm.refl _
    · exact ((orderedInsertPerm le a l).cons b).trans (List.Perm.swap a b l)

theorem insertionSortPerm {α : Type} (le : α → α → Bool) :
    ∀ l : List α, (insertionSort le l).Perm l
  | [] => List.Perm.refl _
  | a :: l => (orderedInsertPerm le a _).trans ((insertionSortPerm le l).cons a)

theorem orderedInsertPairwise {α : Type} (le : α → α → Bool)
    (htrans : ∀ a b c, le a b = true → le b c = true → le a c = true)
    (htot : ∀ a b, (le a b || le b a) = true) (a : α) :
    ∀ l : List α, List.Pairwise (fun x y => le x y = true) l →
      List.Pairwise (fun x y => le x y = true) (orderedInsert le a l)
  | [], _ => by simp [orderedInsert]
  | b :: l, hp => by
    unfold orderedInsert
    split
    · rename_i hab
      obtain ⟨hbl, hpl⟩ := List.pairwise_cons.mp hp
      refine List.pairwise_cons.mpr ⟨?_, hp⟩
      intro y hy
      rcases List.mem_cons.mp hy with rfl | hyl
      · exact hab
      · exact htrans a b y hab (hbl y hyl)
    · rename_i hab
      have hba : le b a = true := by
        rcases (Bool.or_eq_true _ _).mp (htot a b) with h | h
        · exact absurd h hab
        · exact h
      obtain ⟨hbl, hpl⟩ := List.pairwise_cons.mp hp
      refine List.pairwise_cons.mpr ⟨?_, orderedInsertPairwise le htrans htot a l hpl⟩
      intro y hy
      rcases List.mem_cons.mp ((orderedInsertPerm le a l).mem_iff.mp hy) with rfl | hyl
      · exact hba
      · exact hbl y hyl

theorem insertionSortPairwise {α : Type} (le : α → α → Bool)
    (htrans : ∀ a b c, le a b = true → le b c = true → le a c = true)
    (htot : ∀ a b, (le a b || le b a) = true) :
    ∀ l : List α, List.Pairwise (fun x y => le x y = true) (insertionSort le l)
  | [] => List.Pairwise.nil
  | a :: l =>
    orderedInsertPairwise le htrans htot a _ (insertionSortPairwise le htrans htot l)

theorem sortRepos_perm (u : UserRow) (l : List RepoRow) :
    (sortRepos u l).Perm l :=
  insertionSortPerm (rowLe u) l

theorem sortRepos_sorted (u : UserRow) (l : List RepoRow) :
    List.Pairwise (fun a b => rowLe u a b = true) (sortRepos u l) :=
  insertionSortPairwise (rowLe u) (rowLe_trans u) (rowLe_total u) l

/-- Sorted plus pairwise-distinct ids gives the strict descending order. -/
theorem pairwiseStrictOfSorted {u : UserRow} {l : List RepoRow}
    (hs : List.Pairwise (fun a b => rowLe u a b = true) l)
    (hid : (l.map (fun r => r.id)).Nodup) :
    List.Pairwise (strictBefore u) l := by
  have hne : List.Pairwise (fun a b : RepoRow => a.id ≠ b.id) l :=
    List.pairwise_map.mp hid
  refine (hs.and hne).imp ?_
  rintro a b ⟨hle, hne2⟩
  have hkne : keyOf u a ≠ keyOf u b := by
    intro hk
    exact hne2 (congrArg (fun k => k.2.2) hk)
  simp only [rowLe, Bool.not_eq_true'] at hle
  exact keyLtb_of_not hkne hle

/-- In a strictly descending list, the rows satisfying the strict-after
predicate of the last element of `take n` are exactly `drop n`. -/
theorem filterAfterTake {u : UserRow} {l : List RepoRow} {n : Nat} {x : RepoRow}
    (hp : List.Pairwise (strictBefore u) l)
    (hx : (l.take n).getLast? = some x) :
    l.filter (fun r => keyLtb (keyOf u r) (keyOf u x)) = l.drop n := by
  have hl : l = l.take n ++ l.drop n := (List.take_append_drop n l).symm
  have hpa : List.Pairwise (strictBefore u) (l.take n ++ l.drop n) := hl ▸ hp
  obtain ⟨hpt, hpd, hcross⟩ := List.pairwise_append.mp hpa
  have hxt : x ∈ l.take n := memOfGetLastEq hx
  have h1 : (l.take n).filter (fun r => keyLtb (keyOf u r) (keyOf u x)) = [] := by
    rw [List.filter_eq_nil_iff]
    intro a ha
    rcases pairwiseRelGetLast (l.take n) hpt x hx a ha with rfl | hr
    · simp [keyLtb_irrefl]
    · simp [keyLtb_asymm hr]
  have h2 : (l.drop n).filter (fun r => keyLtb (keyOf u r) (keyOf u x)) = l.drop n := by
    rw [List.filter_eq_self]
    intro b hb
    exact hcross x hxt b hb
  conv_lhs => rw [hl]
  rw [List.filter_append, h1, h2, List.nil_append]

theorem strictBefore_asymm (u : UserRow) :
    ∀ a b : RepoRow, strictBefore u a b → ¬strictBefore u b a := by
  intro a b h1 h2
  have := keyLtb_asymm h1
  simp [strictBefore, this] at h2

/-- An if-guarded filter is a sublist of its input. -/
theorem ifFilterSublist (b : Bool) (p : RepoRow → Bool) (l : List RepoRow) :
    (if b then l.filter p else l).Sublist l := by
  split
  · exact List.filter_sublist l
  · exact List.Sublist.refl l

theorem applyFilters_sublist (db : List RepoRow) (search : Option String)
    (skills : Option (List String)) (apu_id : Option String)
    (github_username : Option String) :
    (applyFilters db search skills apu_id github_username).Sublist db := by
  unfold applyFilters
  exact (ifFilterSublist _ _ _).trans ((ifFilterSublist _ _ _).trans
    ((ifFilterSublist _ _ _).trans (ifFilterSublist _ _ _)))

/-! ## Integer codec round-trip -/

theorem charToDigit_digitToChar {d : Nat} (h : d < 10) :
    charToDigit (digitToChar d) = some d := by
  interval_cases d <;> rfl

theorem digitToChar_ne_pipe (d : Nat) : digitToChar d ≠ '|' := by
  unfold digitToChar
  split <;> decide

theorem charsToNatFold (ds : List Nat) (h : ∀ d ∈ ds, d < 10) (acc : Nat) :
    List.foldl (fun acc c => acc.bind fun a => (charToDigit c).map fun d => a * 10 + d)
        (some acc) ((ds.map digitToChar).reverse)
      = some (acc * 10 ^ ds.length + Nat.ofDigits 10 ds) := by
  induction ds generalizing acc with
  | nil => simp [Nat.ofDigits]
  | cons d rest ih =>
    rw [List.map_cons, List.reverse_cons, List.foldl_append]
    rw [ih (fun e he => h e (List.mem_cons_of_mem d he)) acc]
    simp only [List.foldl_cons, List.foldl_nil, Option.some_bind]
    rw [charToDigit_digitToChar (h d (List.mem_cons_self d rest))]
    simp only [Option.map_some', Option.some.injEq, Nat.ofDigits_cons, List.length_cons]
    ring

theorem natToCharsAuxEq : ∀ (fuel n : Nat), n ≤ fuel →
    natToCharsAux fuel n = ((Nat.digits 10 n).map digitToChar).reverse
  | 0, n, h => by
    interval_cases n
    simp [natToCharsAux]
  | fuel + 1, n, h => by
    unfold natToCharsAux
    split
    · rename_i h0
      rw [h0]
      simp
    · rename_i h0
      have hdiv : n / 10 ≤ fuel := by
        have := Nat.div_lt_self (Nat.pos_of_ne_zero h0) (by norm_num : (1 : Nat) < 10)
        omega
      rw [natToCharsAuxEq fuel (n / 10) hdiv,
        Nat.digits_def' (by norm_num : (1 : Nat) < 10) (Nat.pos_of_ne_zero h0)]
      simp

theorem natToCharsEq (n : Nat) :
    natToChars n = if n = 0 then ['0'] else ((Nat.digits 10 n).map digitToChar).reverse := by
  unfold natToChars
  split
  · rfl
  · exact natToCharsAuxEq n n le_rfl

theorem natToChars_ne_nil (n : Nat) : natToChars n ≠ [] := by
  rw [natToCharsEq]
  split
  · simp
  · simp only [ne_eq, List.reverse_eq_nil_iff, List.map_eq_nil_iff]
    exact Nat.digits_ne_nil_iff_ne_zero.mpr (by assumption)

theorem charsToNat_natToChars (n : Nat) : charsToNat (natToChars n) = some n := by
  rw [natToCharsEq]
  split
  · subst n
    rfl
  · rename_i hn
    have hlt : ∀ d ∈ Nat.digits 10 n, d < 10 :=
      fun d hd => Nat.digits_lt_base (by norm_num) hd
    cases hl : ((Nat.digits 10 n).map digitToChar).reverse with
    | nil =>
      exfalso
      rw [List.reverse_eq_nil_iff, List.map_eq_nil_iff] at hl
      exact Nat.digits_ne_nil_iff_ne_zero.mpr hn hl
    | cons c cs =>
      have : charsToNat (c :: cs) =
          List.foldl (fun acc c => acc.bind fun a => (charToDigit c).map fun d => a * 10 + d)
            (some 0) (c :: cs) := rfl
      rw [this, ← hl, charsToNatFold (Nat.digits 10 n) hlt 0]
      simp [Nat.ofDigits_digits]

theorem natToChars_head_digit (n : Nat) :
    ∀ c ∈ natToChars n, charToDigit c ≠ none := by
  intro c hc
  rw [natToCharsEq] at hc
  split at hc
  · simp only [List.mem_singleton] at hc
    subst hc
    decide
  · rw [List.mem_reverse, List.mem_map] at hc
    obtain ⟨d, hd, rfl⟩ := hc
    have : d < 10 := Nat.digits_lt_base (by norm_num) hd
    rw [charToDigit_digitToChar this]
    simp

theorem natToChars_ne_pipe (n : Nat) : '|' ∉ natToChars n := by
  intro h
  have := natToChars_head_digit n '|' h
  exact this rfl

theorem pipeNotInIntString (n : Int) : '|' ∉ (pyIntToString n).data := by
  unfold pyIntToString
  split
  · intro h
    rcases List.mem_cons.mp h with h | h
    · exact absurd h (by decide)
    · exact natToChars_ne_pipe _ h
  · exact natToChars_ne_pipe _

theorem pyParseInt_cons (c : Char) (cs : List Char) :
    pyParseInt ⟨c :: cs⟩
      = if c = '-' then (charsToNat cs).map (fun m => -(Int.ofNat m))
        else (charsToNat (c :: cs)).map (fun m => Int.ofNat m) := rfl

theorem pyParseInt_roundTrip (n : Int) : pyParseInt (pyIntToString n) = some n := by
  unfold pyIntToString
  split
  · rename_i hneg
    rw [pyParseInt_cons, if_pos rfl, charsToNat_natToChars, Option.map_some']
    rw [Option.some.injEq, Int.ofNat_eq_natCast]
    omega
  · rename_i hpos
    cases hl : natToChars n.natAbs with
    | nil => exact absurd hl (natToChars_ne_nil _)
    | cons c cs =>
      have hcd : charToDigit c ≠ none :=
        natToChars_head_digit n.natAbs c (hl ▸ List.mem_cons_self c cs)
      have hcne : c ≠ '-' := by
        intro hc
        subst hc
        exact hcd rfl
      rw [pyParseInt_cons, if_neg hcne, ← hl, charsToNat_natToChars, Option.map_some']
      rw [Option.some.injEq, Int.ofNat_eq_natCast]
      omega

/-! ## Python split lemmas -/

theorem pySplitChar_cons (sep c : Char) (cs : List Char) :
    pySplitChar sep (c :: cs)
      = if c = sep then [] :: pySplitChar sep cs
        else match pySplitChar sep cs with
          | [] => [[c]]
          | p :: ps => (c :: p) :: ps := rfl

theorem pySplitChar_ne_nil (sep : Char) : ∀ l : List Char, pySplitChar sep l ≠ []
  | [] => by simp [pySplitChar]
  | c :: cs => by
    rw [pySplitChar_cons]
    split
    · simp
    · cases h : pySplitChar sep cs with
      | nil => exact absurd h (pySplitChar_ne_nil sep cs)
      | cons p ps => simp

theorem pySplitChar_no_sep (sep : Char) :
    ∀ l : List Char, sep ∉ l → pySplitChar sep l = [l]
  | [], _ => rfl
  | c :: cs, h => by
    have hc : ¬c = sep := fun hc => h (hc ▸ List.mem_cons_self c cs)
    have hcs : sep ∉ cs := fun hm => h (List.mem_cons_of_mem c hm)
    rw [pySplitChar_cons, if_neg hc, pySplitChar_no_sep sep cs hcs]

theorem pySplitChar_append (sep : Char) :
    ∀ (a b : List Char), sep ∉ a →
      pySplitChar sep (a ++ sep :: b) = a :: pySplitChar sep b
  | [], b, _ => by
    show pySplitChar sep (sep :: b) = [] :: pySplitChar sep b
    rw [pySplitChar_cons, if_pos rfl]
  | c :: cs, b, h => by
    have hc : ¬c = sep := fun hc => h (hc ▸ List.mem_cons_self c cs)
    have hcs : sep ∉ cs := fun hm => h (List.mem_cons_of_mem c hm)
    show pySplitChar sep (c :: (cs ++ sep :: b)) = (c :: cs) :: pySplitChar sep b
    rw [pySplitChar_cons, if_neg hc, pySplitChar_append sep cs b hcs]

/-- Building a cursor string and parsing it back recovers the score, the
timestamp and the id, provided the id contains no `'|'` (repository ids are
cuids, which never do). -/
theorem parseCursor_mkCursor (u : UserRow) (r : RepoRow) (h : '|' ∉ r.id.data) :
    parseCursor (mkCursor u r) = some (pyCursorScore u r, r.created_at, r.id) := by
  have hdata : (mkCursor u r).data
      = (pyIntToString (pyCursorScore u r)).data
          ++ '|' :: ((pyIntToString r.created_at).data ++ '|' :: r.id.data) := by
    simp [mkCursor, pyIsoFormat, String.data_append]
  have hsplit : pySplit (mkCursor u r) '|'
      = [pyIntToString (pyCursorScore u r), pyIntToString r.created_at, r.id] := by
    unfold pySplit
    rw [hdata, pySplitChar_append '|' _ _ (pipeNotInIntString _),
      pySplitChar_append '|' _ _ (pipeNotInIntString _),
      pySplitChar_no_sep '|' _ h]
    rfl
  unfold parseCursor
  rw [hsplit]
  norm_num [List.getD]
  rw [show pyFromIso (pyIntToString r.created_at)
      = pyParseInt (pyIntToString r.created_at) from rfl,
    pyParseInt_roundTrip, pyParseInt_roundTrip]

/-! ## The cursor WHERE clause is the strict-after predicate -/

theorem cursorWhere_eq_keyLtb (u : UserRow) (cs ct : Int) (cid : String) (r : RepoRow) :
    cursorWhere u cs ct cid r = keyLtb (keyOf u r) (cs, ct, cid) := by
  rw [Bool.eq_iff_iff]
  simp only [cursorWhere, keyLtb, keyOf, Bool.or_eq_true, Bool.and_eq_true,
    decide_eq_true_eq, beq_iff_eq, strLtbIff]
  tauto

/-! ## The Python cursor score equals the SQL relevance score -/

theorem interNonEmptyIffAny (xs ids : List String) :
    (!(xs.inter ids).isEmpty) = xs.any (fun x => ids.contains x) := by
  rw [Bool.eq_iff_iff, Bool.not_eq_true', List.isEmpty_eq_false]
  simp only [List.any_eq_true]
  constructor
  · intro h
    obtain ⟨x, hx⟩ := List.exists_mem_of_ne_nil _ h
    obtain ⟨h1, h2⟩ := List.mem_inter_iff.mp hx
    exact ⟨x, h1, List.elem_iff.mpr h2⟩
  · rintro ⟨x, hx, hid⟩ hnil
    rw [List.eq_nil_iff_forall_not_mem] at hnil
    exact hnil x (List.mem_inter_iff.mpr ⟨hx, List.elem_iff.mp hid⟩)

theorem anyMapContains {α : Type} (f : α → String) (l : List α) (ids : List String) :
    (l.map f).any (fun x => ids.contains x) = l.any (fun s => ids.contains (f s)) := by
  induction l with
  | nil => rfl
  | cons a t ih => simp only [List.map_cons, List.any_cons, ih]

/-- The score the Python code recomputes for the cursor agrees with the
SQL CASE expression, for every user and repository. -/
theorem cursorScoreEqRelevance (u : UserRow) (r : RepoRow) :
    pyCursorScore u r = sqlRelevanceScore u r := by
  unfold pyCursorScore sqlRelevanceScore
  cases hp : hasPreferences u with
  | false => simp
  | true =>
    simp only [Bool.true_and, if_true]
    rw [interNonEmptyIffAny, interNonEmptyIffAny, anyMapContains, anyMapContains]

/-! ## Page assembly lemmas -/

theorem mkCursorNotEmpty (u : UserRow) (r : RepoRow) :
    (mkCursor u r).data.isEmpty = false := by
  rw [Bool.eq_false_iff]
  intro h
  have h3 : (mkCursor u r).data = [] := List.isEmpty_iff.mp h
  have h4 : (mkCursor u r).data
      = (pyIntToString (pyCursorScore u r)).data
          ++ '|' :: ((pyIntToString r.created_at).data ++ '|' :: r.id.data) := by
    simp [mkCursor, pyIsoFormat, String.data_append]
  rw [h3] at h4
  simp at h4

theorem fetchDbPageNoCursor (db : List RepoRow) (u : UserRow) (limit : Nat)
    (search : Option String) (skills : Option (List String))
    (apu_id github_username : Option String) :
    fetchDbPage db u limit search skills apu_id github_username none
      = (sortRepos u (applyFilters db search skills apu_id github_username)).take limit := rfl

theorem fetchDbPageParsedCursor (db : List RepoRow) (u : UserRow) (limit : Nat)
    (search : Option String) (skills : Option (List String))
    (apu_id github_username : Option String) (c : String)
    (hne : c.data.isEmpty = false) (cs ct : Int) (cid : String)
    (hparse : parseCursor c = some (cs, ct, cid)) :
    fetchDbPage db u limit search skills apu_id github_username (some c)
      = (sortRepos u ((applyFilters db search skills apu_id github_username).filter
          (cursorWhere u cs ct cid))).take limit := by
  simp only [fetchDbPage, hne, hparse, Bool.false_eq_true, if_false]

/-- The second page determined by the cursor of the last row of the first
page is exactly the next block of the sorted filtered rows. -/
theorem pageTwoEqDrop (u : UserRow) (base : List RepoRow) (limit : Nat) (x : RepoRow)
    (hid : (base.map (fun r => r.id)).Nodup)
    (hx : ((sortRepos u base).take limit).getLast? = some x) :
    sortRepos u (base.filter (cursorWhere u (pyCursorScore u x) x.created_at x.id))
      = (sortRepos u base).drop limit := by
  have hpred : ∀ r : RepoRow, cursorWhere u (pyCursorScore u x) x.created_at x.id r
      = keyLtb (keyOf u r) (keyOf u x) := by
    intro r
    rw [cursorWhere_eq_keyLtb, cursorScoreEqRelevance]
    rfl
  have hfilter : base.filter (cursorWhere u (pyCursorScore u x) x.created_at x.id)
      = base.filter (fun r => keyLtb (keyOf u r) (keyOf u x)) :=
    List.filter_congr (fun r _ => hpred r)
  have hid_sort : ((sortRepos u base).map (fun r => r.id)).Nodup :=
    (((sortRepos_perm u base).map (fun r => r.id)).nodup_iff).mpr hid
  have hsorted : List.Pairwise (strictBefore u) (sortRepos u base) :=
    pairwiseStrictOfSorted (sortRepos_sorted u base) hid_sort
  have hdrop : (sortRepos u base).filter (fun r => keyLtb (keyOf u r) (keyOf u x))
      = (sortRepos u base).drop limit := filterAfterTake hsorted hx
  have hid_f : ((base.filter (fun r => keyLtb (keyOf u r) (keyOf u x))).map
      (fun r => r.id)).Nodup :=
    ((List.filter_sublist base).map (fun r => r.id)).nodup hid
  rw [hfilter]
  apply eqOfPermOfPairwiseAsymm (strictBefore_asymm u)
  · have h1 := sortRepos_perm u (base.filter (fun r => keyLtb (keyOf u r) (keyOf u x)))
    have h2 := List.Perm.filter (fun r => keyLtb (keyOf u r) (keyOf u x))
      (sortRepos_perm u base).symm
    rw [hdrop] at h2
    exact h1.trans h2
  · exact pairwiseStrictOfSorted (sortRepos_sorted u _)
      (((sortRepos_perm u _).map (fun r => r.id)).nodup_iff.mpr hid_f)
  · exact hsorted.sublist (List.drop_sublist limit _)

/-- When the first-page call returns a next cursor, the page was full and
the cursor is the one built from its last row. -/
theorem nextCursorSome (db : List RepoRow) (u : UserRow) (limit : Nat)
    (search : Option String) (skills : Option (List String))
    (apu_id github_username : Option String) (cur : Option String)
    (data : Nat → Option GhObj) (c : String)
    (hc : (getAllLocalReposHydrated db u limit search skills apu_id github_username
      cur data).next_cursor = some c) :
    ∃ last, (fetchDbPage db u limit search skills apu_id github_username cur).getLast?
        = some last
      ∧ (fetchDbPage db u limit search skills apu_id github_username cur).length = limit
      ∧ c = mkCursor u last := by
  simp only [getAllLocalReposHydrated] at hc
  split at hc
  · simp at hc
  · simp only at hc
    split at hc
    · rename_i hlen
      cases hgl : (fetchDbPage db u limit search skills apu_id github_username cur).getLast? with
      | none =>
        rw [hgl] at hc
        simp at hc
      | some last =>
        rw [hgl] at hc
        simp only [Option.some.injEq] at hc
        exact ⟨last, rfl, hlen, hc.symm⟩
    · simp at hc

/-- C1: for a well-formed three-part cursor, the WHERE predicate added by
`get_all_local_repos_hydrated` is exactly the strict-after comparison in
the `(relevance_score DESC, created_at DESC, id DESC)` order; hence
whenever a first-page call returns a cursor, the page fetched with that
cursor is exactly the next block of the sorted rows: it contains no row of
the first page and omits none that follows it in that order.  Hypotheses:
the repository ids are pairwise distinct (primary key) and contain no `'|'`
(they are cuids). -/
theorem c1_cursor_pagination (db : List RepoRow) (u : UserRow) (limit : Nat)
    (search : Option String) (skills : Option (List String))
    (apu_id github_username : Option String) (data : Nat → Option GhObj)
    (hids : (db.map (fun r => r.id)).Nodup)
    (hpipe : ∀ r ∈ db, '|' ∉ r.id.data) :
    (∀ (cs ct : Int) (cid : String) (r : RepoRow),
        cursorWhere u cs ct cid r = keyLtb (keyOf u r) (cs, ct, cid))
    ∧ ∀ c, (getAllLocalReposHydrated db u limit search skills apu_id github_username
          none data).next_cursor = some c →
        fetchDbPage db u limit search skills apu_id github_username (some c)
          = ((sortRepos u (applyFilters db search skills apu_id github_username)).drop
              limit).take limit
        ∧ ∀ r ∈ fetchDbPage db u limit search skills apu_id github_username (some c),
            r ∉ fetchDbPage db u limit search skills apu_id github_username none := by
  constructor
  · exact fun cs ct cid r => cursorWhere_eq_keyLtb u cs ct cid r
  intro c hc
  obtain ⟨last, hgl, _, rfl⟩ :=
    nextCursorSome db u limit search skills apu_id github_username none data c hc
  have hbase_sub : (applyFilters db search skills apu_id github_username).Sublist db :=
    applyFilters_sublist db search skills apu_id github_username
  have hbase_id : ((applyFilters db search skills apu_id github_username).map
      (fun r => r.id)).Nodup :=
    (hbase_sub.map (fun r => r.id)).nodup hids
  have hlast_mem : last ∈ db := by
    have h1 : last ∈ fetchDbPage db u limit search skills apu_id github_username none :=
      memOfGetLastEq hgl
    rw [fetchDbPageNoCursor] at h1
    have h2 := (List.take_sublist limit _).subset h1
    have h3 := (sortRepos_perm u _).mem_iff.mp h2
    exact hbase_sub.subset h3
  have hparse := parseCursor_mkCursor u last (hpipe last hlast_mem)
  have hfetch := fetchDbPageParsedCursor db u limit search skills apu_id github_username
    (mkCursor u last) (mkCursorNotEmpty u last) (pyCursorScore u last) last.created_at
    last.id hparse
  have hdrop := pageTwoEqDrop u (applyFilters db search skills apu_id github_username)
    limit last hbase_id (by rw [fetchDbPageNoCursor] at hgl; exact hgl)
  rw [hfetch, hdrop]
  refine ⟨rfl, ?_⟩
  intro r hr hr1
  have hnodup_sort : (sortRepos u (applyFilters db search skills apu_id
      github_username)).Nodup :=
    List.Nodup.of_map (fun r => r.id)
      (((sortRepos_perm u _).map (fun r => r.id)).nodup_iff.mpr hbase_id)
  have hsplit := List.take_append_drop limit
    (sortRepos u (applyFilters db search skills apu_id github_username))
  have hdisj := List.disjoint_of_nodup_append (hsplit.symm ▸ hnodup_sort)
  rw [fetchDbPageNoCursor] at hr1
  exact hdisj hr1 ((List.take_sublist limit _).subset hr)

/-! ## Claim theorems -/

/-- C3: for the last repository of a full page, the relevance score
recomputed in Python for the next_cursor string (1 when the repository's
programming-language ids intersect the user's preferred-language ids or
its framework ids intersect the user's preferred-framework ids, else 0,
and always 0 without preferences) equals the value the SQL CASE expression
`relevance_score` assigns to that same repository, for every user and
repository. -/
theorem c3_cursor_score_matches_sql_score :
    ∀ (u : UserRow) (r : RepoRow), pyCursorScore u r = sqlRelevanceScore u r :=
  fun u r => cursorScoreEqRelevance u r

/-- C10: for every cursor string whose parsing fails (no usable parts, a
non-integer score, or an unparsable timestamp), `get_all_local_repos_hydrated`
does not propagate the exception: the cursor filter is skipped and the call
returns the same result as a call with `cursor = None`. -/
theorem c10_invalid_cursor_ignored (db : List RepoRow) (u : UserRow) (limit : Nat)
    (search : Option String) (skills : Option (List String))
    (apu_id github_username : Option String) (data : Nat → Option GhObj)
    (c : String) (hfail : parseCursor c = none) :
    getAllLocalReposHydrated db u limit search skills apu_id github_username
        (some c) data
      = getAllLocalReposHydrated db u limit search skills apu_id github_username
        none data := by
  have h : fetchDbPage db u limit search skills apu_id github_username (some c)
      = fetchDbPage db u limit search skills apu_id github_username none := by
    simp only [fetchDbPage, hfail]
    cases c.data.isEmpty <;> simp
  unfold getAllLocalReposHydrated
  rw [h]

/-- Witness for C10 at a cursor with no usable parts. -/
theorem c10_witness :
    getAllLocalReposHydrated wDb wUserPlain 20 none none none none
        (some "garbage") (fun _ => none)
      = getAllLocalReposHydrated wDb wUserPlain 20 none none none none
        none (fun _ => none) :=
  c10_invalid_cursor_ignored wDb wUserPlain 20 none none none none
    (fun _ => none) "garbage" (by decide)

/-- Witness for C1: with two repositories and page size 1, the page fetched
with the cursor of the first page is exactly the second block of the sorted
rows. -/
theorem c1_witness :
    fetchDbPage wDb wUserPlain 1 none none none none
        (some (mkCursor wUserPlain wRepoNew))
      = ((sortRepos wUserPlain (applyFilters wDb none none none none)).drop 1).take 1 :=
  ((c1_cursor_pagination wDb wUserPlain 1 none none none none (fun _ => none)
      (by decide) (by decide)).2
    (mkCursor wUserPlain wRepoNew) (by decide)).1

/-- C2 counterexample: at `limit = 0` the number of rows fetched (0) equals
`limit`, yet the function returns `next_cursor = None` through its
empty-page early return, so no cursor built from a last page row is
returned; the stated iff fails. -/
theorem c2_counterexample_limit_zero :
    (fetchDbPage wDb wUserPlain 0 none none none none none).length = 0
    ∧ ¬∃ l, (fetchDbPage wDb wUserPlain 0 none none none none none).getLast? = some l
        ∧ (getAllLocalReposHydrated wDb wUserPlain 0 none none none none none
            (fun _ => none)).next_cursor = some (mkCursor wUserPlain l) := by
  refine ⟨by decide, ?_⟩
  rintro ⟨l, hl, _⟩
  have h : (fetchDbPage wDb wUserPlain 0 none none none none none).getLast? = none := by
    decide
  rw [h] at hl
  cases hl

/-- C2 (amended): `get_all_local_repos_hydrated` returns
`next_cursor = "score|ISO-timestamp|id"` built from the last repository of
the fetched page if and only if the page is non-empty and the number of
repositories fetched equals `limit`; if no repository matches it returns
`{items: [], next_cursor: None}`, and if fewer than `limit` rows are
fetched `next_cursor` is `None`. -/
theorem c2_next_cursor_characterization (db : List RepoRow) (u : UserRow)
    (limit : Nat) (search : Option String) (skills : Option (List String))
    (apu_id github_username : Option String) (cur : Option String)
    (data : Nat → Option GhObj) :
    (fetchDbPage db u limit search skills apu_id github_username cur = [] →
      getAllLocalReposHydrated db u limit search skills apu_id github_username cur data
        = ⟨[], none⟩)
    ∧ (∀ l, (fetchDbPage db u limit search skills apu_id github_username cur).getLast?
          = some l →
        (fetchDbPage db u limit search skills apu_id github_username cur).length = limit →
        (getAllLocalReposHydrated db u limit search skills apu_id github_username
            cur data).next_cursor = some (mkCursor u l))
    ∧ ((fetchDbPage db u limit search skills apu_id github_username cur).length ≠ limit →
        (getAllLocalReposHydrated db u limit search skills apu_id github_username
            cur data).next_cursor = none)
    ∧ (∀ c, (getAllLocalReposHydrated db u limit search skills apu_id github_username
            cur data).next_cursor = some c →
        (fetchDbPage db u limit search skills apu_id github_username cur).length = limit
        ∧ ∃ l, (fetchDbPage db u limit search skills apu_id github_username cur).getLast?
              = some l
            ∧ c = mkCursor u l) := by
  refine ⟨?_, ?_, ?_, ?_⟩
  · intro h
    simp [getAllLocalReposHydrated, h]
  · intro l hl hlen
    have hne : (fetchDbPage db u limit search skills apu_id github_username cur).isEmpty
        = false := by
      rw [List.isEmpty_eq_false]
      rintro hnil
      rw [hnil] at hl
      cases hl
    simp only [getAllLocalReposHydrated, hne, Bool.false_eq_true, if_false, if_pos hlen, hl]
  · intro hlen
    cases hne : (fetchDbPage db u limit search skills apu_id github_username cur).isEmpty with
    | true => simp [getAllLocalReposHydrated, hne]
    | false => simp [getAllLocalReposHydrated, hne, hlen]
  · intro c hc
    obtain ⟨l, hl, hlen, rfl⟩ :=
      nextCursorSome db u limit search skills apu_id github_username cur data c hc
    exact ⟨hlen, l, hl, rfl⟩

/-- Witness for C2: a full two-row page yields the cursor of its last
row. -/
theorem c2_witness :
    (getAllLocalReposHydrated wDb wUserPlain 2 none none none none none
        (fun _ => none)).next_cursor = some (mkCursor wUserPlain wRepoOld) :=
  (c2_next_cursor_characterization wDb wUserPlain 2 none none none none none
    (fun _ => none)).2.1 wRepoOld (by decide) (by decide)

theorem filterMapEqFilterMap (data : Nat → Option GhObj) :
    ∀ l : List (Nat × RepoRow),
      l.filterMap (fun p =>
          match data p.1 with
          | some o => if o.isEmpty then none else some (buildItem p.2 o)
          | none => none)
        = (l.filter (fun p => ghTruthy (data p.1))).map
            (fun p => buildItem p.2 ((data p.1).getD []))
  | [] => rfl
  | p :: t => by
    rw [List.filterMap_cons, List.filter_cons, filterMapEqFilterMap data t]
    cases hd : data p.1 with
    | none => simp [ghTruthy]
    | some o =>
      cases ho : o.isEmpty with
      | true => simp [ghTruthy, ho]
      | false => simp [ghTruthy, ho, hd]

theorem hydrateItemsEqSpec (page : List RepoRow) (data : Nat → Option GhObj) :
    hydrateItems page data = specItems page data := by
  unfold hydrateItems specItems keptPairs
  exact filterMapEqFilterMap data page.enum

/-- C5 (amended): the items returned are exactly the repositories of the
database page whose GraphQL entry under `repo_<index>` is present, non-null
and non-empty (Python truthiness), kept in database-page order, each the
GitHub data merged over the `db_*` fields of that repository; and
`next_cursor`, computed before the hydration, does not depend on the
GraphQL response at all. -/
theorem c5_items_hydration (db : List RepoRow) (u : UserRow) (limit : Nat)
    (search : Option String) (skills : Option (List String))
    (apu_id github_username : Option String) (cur : Option String)
    (data data2 : Nat → Option GhObj) :
    (getAllLocalReposHydrated db u limit search skills apu_id github_username
        cur data).items
      = specItems (fetchDbPage db u limit search skills apu_id github_username cur) data
    ∧ (getAllLocalReposHydrated db u limit search skills apu_id github_username
        cur data).next_cursor
      = (getAllLocalReposHydrated db u limit search skills apu_id github_username
        cur data2).next_cursor := by
  constructor
  · simp only [getAllLocalReposHydrated]
    split
    · rename_i hemp
      rw [List.isEmpty_iff.mp hemp]
      rfl
    · exact hydrateItemsEqSpec _ data
  · simp only [getAllLocalReposHydrated]
    split
    · rfl
    · rfl

/-- C5 counterexample: a present but empty GraphQL object (non-null, yet
falsy in Python) is dropped from the items, while the claim as stated keeps
every repository with a non-null entry. -/
theorem c5_counterexample_empty_object :
    (getAllLocalReposHydrated wDb wUserPlain 2 none none none none none
        (fun _ => some ([] : GhObj))).items
      ≠ literalItems (fetchDbPage wDb wUserPlain 2 none none none none none)
          (fun _ => some ([] : GhObj)) := by
  decide

theorem keyLtbIffParts (a b : Int × Int × String) :
    keyLtb a b = true ↔
      a.1 < b.1 ∨ (a.1 = b.1 ∧ (a.2.1 < b.2.1 ∨ (a.2.1 = b.2.1 ∧ a.2.2 < b.2.2))) := by
  obtain ⟨s1, t1, i1⟩ := a
  obtain ⟨s2, t2, i2⟩ := b
  simp only [keyLtb, Bool.or_eq_true, Bool.and_eq_true, decide_eq_true_eq,
    beq_iff_eq, strLtbIff]

/-- The SQL score written through `sharesPreference`. -/
theorem scoreEqSharesIf (u : UserRow) (r : RepoRow) :
    sqlRelevanceScore u r
      = if hasPreferences u then (if sharesPreference u r then 1 else 0) else 0 := rfl

theorem fetchDbPageEmptyCursor (db : List RepoRow) (u : UserRow) (limit : Nat)
    (search : Option String) (skills : Option (List String))
    (apu_id github_username : Option String) (c : String)
    (hc : c.data.isEmpty = true) :
    fetchDbPage db u limit search skills apu_id github_username (some c)
      = (sortRepos u (applyFilters db search skills apu_id github_username)).take limit := by
  simp only [fetchDbPage, hc, if_true]

theorem fetchDbPageBadCursor (db : List RepoRow) (u : UserRow) (limit : Nat)
    (search : Option String) (skills : Option (List String))
    (apu_id github_username : Option String) (c : String)
    (hp : parseCursor c = none) :
    fetchDbPage db u limit search skills apu_id github_username (some c)
      = (sortRepos u (applyFilters db search skills apu_id github_username)).take limit := by
  simp only [fetchDbPage, hp]
  cases c.data.isEmpty <;> simp

/-- Every fetched page is strictly descending in the composite sort key,
provided the repository ids are pairwise distinct. -/
theorem fetchDbPagePairwise (db : List RepoRow) (u : UserRow) (limit : Nat)
    (search : Option String) (skills : Option (List String))
    (apu_id github_username : Option String) (cur : Option String)
    (hids : (db.map (fun r => r.id)).Nodup) :
    List.Pairwise (strictBefore u)
      (fetchDbPage db u limit search skills apu_id github_username cur) := by
  have key : ∀ l : List RepoRow, l.Sublist db →
      List.Pairwise (strictBefore u) ((sortRepos u l).take limit) := by
    intro l hsub
    have hid : (l.map (fun r => r.id)).Nodup := (hsub.map _).nodup hids
    have hids2 : ((sortRepos u l).map (fun r => r.id)).Nodup :=
      ((sortRepos_perm u l).map _).nodup_iff.mpr hid
    exact List.Pairwise.sublist (List.take_sublist limit _)
      (pairwiseStrictOfSorted (sortRepos_sorted u l) hids2)
  have hbase := applyFilters_sublist db search skills apu_id github_username
  cases cur with
  | none =>
    rw [fetchDbPageNoCursor]
    exact key _ hbase
  | some c =>
    cases hc : c.data.isEmpty with
    | true =>
      rw [fetchDbPageEmptyCursor db u limit search skills apu_id github_username c hc]
      exact key _ hbase
    | false =>
      cases hp : parseCursor c with
      | none =>
        rw [fetchDbPageBadCursor db u limit search skills apu_id github_username c hp]
        exact key _ hbase
      | some trip =>
        obtain ⟨cs, ct, cid⟩ := trip
        rw [fetchDbPageParsedCursor db u limit search skills apu_id github_username c hc
          cs ct cid hp]
        exact key _ ((List.filter_sublist _).trans hbase)

/-- The kept rows are a sublist of the page. -/
theorem keptRowsSublist (page : List RepoRow) (data : Nat → Option GhObj) :
    (keptRows page data).Sublist page := by
  have h1 : (keptPairs page data).Sublist page.enum := List.filter_sublist _
  have h2 := h1.map Prod.snd
  rw [List.enum_map_snd] at h2
  exact h2

/-- C4: the returned items are the merged records of the kept page rows in
page order, and those rows are ordered as the claim states: with
preferences, every row sharing a preferred language or framework precedes
every row sharing none; rows of equal relevance score appear in strictly
decreasing `created_at` order with ties broken by decreasing id; without
preferences the order is `created_at` then id, both descending.
Hypothesis: repository ids are pairwise distinct (primary key). -/
theorem c4_relevance_order (db : List RepoRow) (u : UserRow) (limit : Nat)
    (search : Option String) (skills : Option (List String))
    (apu_id github_username : Option String) (cur : Option String)
    (data : Nat → Option GhObj)
    (hids : (db.map (fun r => r.id)).Nodup) :
    (getAllLocalReposHydrated db u limit search skills apu_id github_username
        cur data).items
      = specItems (fetchDbPage db u limit search skills apu_id github_username cur) data
    ∧ (hasPreferences u = true →
        List.Pairwise (fun a b => sharesPreference u b = true → sharesPreference u a = true)
          (keptRows (fetchDbPage db u limit search skills apu_id github_username cur) data))
    ∧ List.Pairwise (fun a b => sqlRelevanceScore u a = sqlRelevanceScore u b →
          b.created_at < a.created_at ∨ (b.created_at = a.created_at ∧ b.id < a.id))
        (keptRows (fetchDbPage db u limit search skills apu_id github_username cur) data)
    ∧ (hasPreferences u = false →
        List.Pairwise (fun a b => b.created_at < a.created_at
            ∨ (b.created_at = a.created_at ∧ b.id < a.id))
          (keptRows (fetchDbPage db u limit search skills apu_id github_username cur) data)) := by
  have hitems : (getAllLocalReposHydrated db u limit search skills apu_id github_username
      cur data).items
        = specItems (fetchDbPage db u limit search skills apu_id github_username cur)
            data := by
    simp only [getAllLocalReposHydrated]
    split
    · rename_i hemp
      rw [List.isEmpty_iff.mp hemp]
      rfl
    · exact hydrateItemsEqSpec _ data
  have hkept : List.Pairwise (strictBefore u)
      (keptRows (fetchDbPage db u limit search skills apu_id github_username cur) data) :=
    List.Pairwise.sublist (keptRowsSublist _ data)
      (fetchDbPagePairwise db u limit search skills apu_id github_username cur hids)
  refine ⟨hitems, ?_, ?_, ?_⟩
  · intro hpref
    refine hkept.imp ?_
    intro a b hab hshb
    have hparts := (keyLtbIffParts (keyOf u b) (keyOf u a)).mp hab
    simp only [keyOf] at hparts
    rw [scoreEqSharesIf, scoreEqSharesIf, hpref, hshb] at hparts
    by_cases hsa : sharesPreference u a = true
    · exact hsa
    · rw [Bool.not_eq_true] at hsa
      rw [hsa] at hparts
      simp at hparts
  · refine hkept.imp ?_
    intro a b hab heq
    have hparts := (keyLtbIffParts (keyOf u b) (keyOf u a)).mp hab
    simp only [keyOf] at hparts
    rcases hparts with h | ⟨h, h2⟩
    · omega
    · exact h2
  · intro hnopref
    refine hkept.imp ?_
    intro a b hab
    have hparts := (keyLtbIffParts (keyOf u b) (keyOf u a)).mp hab
    simp only [keyOf] at hparts
    rw [scoreEqSharesIf, scoreEqSharesIf, hnopref] at hparts
    simp only [Bool.false_eq_true, if_false] at hparts
    rcases hparts with h | ⟨h, h2⟩
    · omega
    · exact h2

/-- Witness for C4 with a preference-holding user: the row sharing a
preferred language precedes the row sharing none. -/
theorem c4_witness :
    List.Pairwise (fun a b => sharesPreference wUserPref b = true →
        sharesPreference wUserPref a = true)
      (keptRows (fetchDbPage wDb wUserPref 2 none none none none none)
        (fun _ => some [("login", JVal.str "x")])) :=
  (c4_relevance_order wDb wUserPref 2 none none none none none
    (fun _ => some [("login", JVal.str "x")]) (by decide)).2.1 (by decide)

/-! ## Authentication service claims -/

theorem pyTruthyClaimOfNe (s : String) (h : s ≠ "") :
    pyTruthyClaim (some s) = true := by
  simp only [pyTruthyClaim, Bool.not_eq_true', List.isEmpty_eq_false, ne_eq]
  intro hdata
  apply h
  obtain ⟨d⟩ := s
  simp only at hdata
  rw [hdata]

theorem jwtDecodeOkIff (t : Jwt) (key alg : String) (now : Int)
    (payload : JwtPayload) :
    jwtDecode t key alg now = Except.ok payload
      ↔ t.key = key ∧ t.alg = alg ∧ now < t.payload.exp ∧ payload = t.payload := by
  unfold jwtDecode
  split_ifs with h1 h2
  · constructor
    · intro h
      exact absurd h (by simp)
    · rintro ⟨_, _, h3, _⟩
      omega
  · simp only [Except.ok.injEq]
    constructor
    · intro h
      exact ⟨h1.1, h1.2, by omega, h.symm⟩
    · rintro ⟨_, _, _, h4⟩
      exact h4.symm
  · constructor
    · intro h
      exact absurd h (by simp)
    · rintro ⟨ha, hb, _, _⟩
      exact absurd ⟨ha, hb⟩ h1

theorem verifyTokenOkIff (secret alg : String) (now : Int) (token : Jwt)
    (expected : String) (td : TokenData) :
    verify_token secret alg now token expected = Except.ok td
      ↔ token.key = secret ∧ token.alg = alg ∧ now < token.payload.exp
        ∧ pyTruthyClaim token.payload.id = true
        ∧ pyTruthyClaim token.payload.sub = true
        ∧ token.payload.typ.getD "access" = expected
        ∧ td = ⟨token.payload.id, token.payload.sub, expected⟩ := by
  unfold verify_token
  cases hd : jwtDecode token secret alg now with
  | error e =>
    have hno : ∀ p : JwtPayload, jwtDecode token secret alg now ≠ Except.ok p := by
      intro p hp
      rw [hd] at hp
      cases hp
    cases e with
    | expired =>
      constructor
      · intro h
        exact absurd h (by simp)
      · rintro ⟨hk, ha, hexp, _⟩
        exact absurd ((jwtDecodeOkIff token secret alg now token.payload).mpr
          ⟨hk, ha, hexp, rfl⟩) (hno token.payload)
    | invalid =>
      constructor
      · intro h
        exact absurd h (by simp)
      · rintro ⟨hk, ha, hexp, _⟩
        exact absurd ((jwtDecodeOkIff token secret alg now token.payload).mpr
          ⟨hk, ha, hexp, rfl⟩) (hno token.payload)
  | ok payload =>
    obtain ⟨hk, ha, hexp, hpl⟩ := (jwtDecodeOkIff token secret alg now payload).mp hd
    subst hpl
    dsimp only
    split_ifs with h1 h2
    · constructor
      · intro h
        exact absurd h (by simp)
      · rintro ⟨_, _, _, ht1, ht2, _⟩
        rw [ht1, ht2] at h1
        simp at h1
    · constructor
      · intro h
        exact absurd h (by simp)
      · rintro ⟨_, _, _, _, _, hty, _⟩
        exact h2 hty
    · have h1x : pyTruthyClaim token.payload.id = true
          ∧ pyTruthyClaim token.payload.sub = true := by
        rcases hA : pyTruthyClaim token.payload.id <;>
          rcases hB : pyTruthyClaim token.payload.sub <;> simp_all
      push_neg at h2
      simp only [Except.ok.injEq]
      constructor
      · intro h
        exact ⟨hk, ha, hexp, h1x.1, h1x.2, h2, by rw [← h, h2]⟩
      · rintro ⟨_, _, _, _, _, hty, htd⟩
        rw [htd, hty]

/-- C7: for every non-empty user_id and apu_id, any role and any positive
expiry window, a token minted by `create_access_token` verified as an
access token before its expiry instant round-trips to `TokenData` with the
encoded `user_id`, `apu_id` and token_type `"access"`.  Verifying a token
minted by `create_refresh_token` with `expected_type = "access"` raises
`AuthenticationError` — but with error_code `TOKEN_VERIFICATION_FAILED`,
because the internal `INVALID_TOKEN_TYPE` raise is swallowed by the
function's own blanket `except Exception` clause and re-wrapped. -/
theorem c7_access_token_roundtrip (user_id apu_id role : String)
    (delta now verifyAt : Int) (secret alg : String)
    (hid : user_id ≠ "") (hsub : apu_id ≠ "") (hdelta : 0 < delta)
    (hbefore : verifyAt < now + delta) :
    verify_token secret alg verifyAt
        (create_access_token user_id apu_id role delta now secret alg) "access"
      = Except.ok ⟨some user_id, some apu_id, "access"⟩
    ∧ verify_token secret alg verifyAt
        (create_refresh_token user_id apu_id role delta now secret alg) "access"
      = Except.error ⟨"TOKEN_VERIFICATION_FAILED", "Token verification failed"⟩ := by
  constructor
  · exact (verifyTokenOkIff secret alg verifyAt _ "access" _).mpr
      ⟨rfl, rfl, hbefore, pyTruthyClaimOfNe _ hid, pyTruthyClaimOfNe _ hsub, rfl, rfl⟩
  · have hdec : jwtDecode (create_refresh_token user_id apu_id role delta now secret alg)
        secret alg verifyAt
        = Except.ok (create_refresh_token user_id apu_id role delta now secret alg).payload :=
      (jwtDecodeOkIff _ secret alg verifyAt _).mpr ⟨rfl, rfl, hbefore, rfl⟩
    unfold verify_token
    rw [hdec]
    dsimp only [create_refresh_token]
    rw [pyTruthyClaimOfNe _ hid, pyTruthyClaimOfNe _ hsub]
    simp only [Bool.and_self, Bool.not_true, Bool.false_eq_true, if_false,
      Option.getD_some]
    rw [if_pos (by decide : ("refresh" : String) ≠ "access")]

/-- Witness for C7 at concrete values. -/
theorem c7_witness :
    verify_token "k" "HS256" 10
        (create_refresh_token "u1" "TP000001" "student" 100 0 "k" "HS256") "access"
      = Except.error ⟨"TOKEN_VERIFICATION_FAILED", "Token verification failed"⟩ :=
  (c7_access_token_roundtrip "u1" "TP000001" "student" 100 0 10 "k" "HS256"
    (by decide) (by decide) (by decide) (by decide)).2

theorem authenticateUserNone (users : List UserRow) (vp : String → String → Bool)
    (apu_id password : String)
    (hf : get_user_by_apu_id users apu_id = none) :
    authenticate_user users vp apu_id password
      = (Except.error ⟨"AUTHENTICATION_FAILED", "Invalid Email or Password"⟩, 1) := by
  unfold authenticate_user
  rw [hf]

theorem authenticateUserSome (users : List UserRow) (vp : String → String → Bool)
    (apu_id password : String) (u2 : UserRow)
    (hf : get_user_by_apu_id users apu_id = some u2) :
    authenticate_user users vp apu_id password
      = if vp password u2.password_hash then (Except.ok u2, 0)
        else (Except.error ⟨"AUTHENTICATION_FAILED", "Invalid Email or Password"⟩, 0) := by
  unfold authenticate_user
  rw [hf]

/-- C8: `authenticate_user` returns the user found by apu_id exactly when
that user exists and the password verifies; a missing user performs one
dummy password verification before raising `AuthenticationError`; a
password mismatch raises without a dummy verification.  The embedding is
read-only, as is the source function (no session write). -/
theorem c8_authenticate_user_characterization (users : List UserRow)
    (vp : String → String → Bool) (apu_id password : String) :
    (∀ user, authenticate_user users vp apu_id password = (Except.ok user, 0)
        ↔ get_user_by_apu_id users apu_id = some user
          ∧ vp password user.password_hash = true)
    ∧ (get_user_by_apu_id users apu_id = none →
        authenticate_user users vp apu_id password
          = (Except.error ⟨"AUTHENTICATION_FAILED", "Invalid Email or Password"⟩, 1))
    ∧ (∀ user, get_user_by_apu_id users apu_id = some user →
        vp password user.password_hash = false →
        authenticate_user users vp apu_id password
          = (Except.error ⟨"AUTHENTICATION_FAILED", "Invalid Email or Password"⟩, 0)) := by
  refine ⟨?_, ?_, ?_⟩
  · intro user
    cases hf : get_user_by_apu_id users apu_id with
    | none =>
      rw [authenticateUserNone users vp apu_id password hf]
      constructor
      · intro h
        simp at h
      · rintro ⟨h, _⟩
        cases h
    | some u2 =>
      rw [authenticateUserSome users vp apu_id password u2 hf]
      cases hv : vp password u2.password_hash with
      | true =>
        rw [if_pos rfl]
        constructor
        · intro h
          rw [Prod.mk.injEq] at h
          obtain ⟨h1, _⟩ := h
          rw [Except.ok.injEq] at h1
          subst h1
          exact ⟨rfl, hv⟩
        · rintro ⟨h1, _⟩
          rw [Option.some.injEq] at h1
          subst h1
          rfl
      | false =>
        rw [if_neg (by simp : ¬false = true)]
        constructor
        · intro h
          simp at h
        · rintro ⟨h1, h2⟩
          rw [Option.some.injEq] at h1
          subst h1
          rw [hv] at h2
          cases h2
  · intro h
    exact authenticateUserNone users vp apu_id password h
  · intro user hf hv
    rw [authenticateUserSome users vp apu_id password user hf, if_neg (by simp [hv])]

/-- Witness for C8: the stored user authenticates under a verifier that
accepts its stored hash. -/
theorem c8_witness :
    authenticate_user [wUserPlain] (fun _ h => h == "hash-hash-hash")
        "TP000001" "pw" = (Except.ok wUserPlain, 0) :=
  (c8_authenticate_user_characterization [wUserPlain]
    (fun _ h => h == "hash-hash-hash") "TP000001" "pw").1 wUserPlain |>.mpr
    ⟨by decide, by decide⟩

/-- C6: `refresh_access_token` returns a freshly minted access token next
to the unchanged refresh token exactly when the refresh token is a valid,
unexpired JWT of type `"refresh"` with non-empty id and sub claims, a
non-revoked database row stores this token, that row's expiry is not
earlier than the current time, and a user with the token's apu_id exists;
in every other case the call raises `AuthenticationError`.  Neither the
source function nor the embedding writes to the database. -/
theorem c6_refresh_token_characterization (secret alg : String)
    (accessDelta now : Int) (db : List RefreshTokenRow) (users : List UserRow)
    (t : Jwt) :
    (∀ row user,
        t.key = secret → t.alg = alg → now < t.payload.exp →
        t.payload.typ.getD "access" = "refresh" →
        pyTruthyClaim t.payload.id = true → pyTruthyClaim t.payload.sub = true →
        db.find? (fun row2 => row2.token == t && row2.revoked == false) = some row →
        ¬row.expires_at < now →
        get_user_by_apu_id users (t.payload.sub.getD "") = some user →
        refresh_access_token secret alg accessDelta now db users t
          = Except.ok ⟨create_access_token user.id user.apu_id user.role accessDelta
              now secret alg, t, "Bearer"⟩)
    ∧ (¬(t.key = secret ∧ t.alg = alg ∧ now < t.payload.exp
          ∧ t.payload.typ.getD "access" = "refresh"
          ∧ pyTruthyClaim t.payload.id = true ∧ pyTruthyClaim t.payload.sub = true
          ∧ (∃ row, db.find? (fun row2 => row2.token == t && row2.revoked == false)
                = some row ∧ ¬row.expires_at < now)
          ∧ ∃ user, get_user_by_apu_id users (t.payload.sub.getD "") = some user) →
        ∃ e : AuthError, refresh_access_token secret alg accessDelta now db users t
          = Except.error e) := by
  constructor
  · intro row user hk ha hexp hty hti hts hrow hexpiry huser
    have hv : verify_token secret alg now t "refresh"
        = Except.ok ⟨t.payload.id, t.payload.sub, "refresh"⟩ :=
      (verifyTokenOkIff secret alg now t "refresh" _).mpr
        ⟨hk, ha, hexp, hti, hts, hty, rfl⟩
    obtain ⟨sv, hsv⟩ : ∃ sv, t.payload.sub = some sv := by
      cases hsub : t.payload.sub with
      | none =>
        rw [hsub] at hts
        simp [pyTruthyClaim] at hts
      | some sv => exact ⟨sv, rfl⟩
    unfold refresh_access_token
    rw [hv]
    dsimp only
    rw [if_neg (show ¬t.payload.sub = none by rw [hsv]; simp)]
    simp only [hrow]
    rw [if_neg hexpiry]
    simp only [huser]
  · intro hncond
    cases hv : verify_token secret alg now t "refresh" with
    | error e =>
      refine ⟨e, ?_⟩
      unfold refresh_access_token
      rw [hv]
    | ok td =>
      obtain ⟨hk, ha, hexp, hti, hts, hty, htd⟩ :=
        (verifyTokenOkIff secret alg now t "refresh" td).mp hv
      subst htd
      obtain ⟨sv, hsv⟩ : ∃ sv, t.payload.sub = some sv := by
        cases hsub : t.payload.sub with
        | none =>
          rw [hsub] at hts
          simp [pyTruthyClaim] at hts
        | some sv => exact ⟨sv, rfl⟩
      cases hrow : db.find? (fun row2 => row2.token == t && row2.revoked == false) with
      | none =>
        refine ⟨⟨"TOKEN_REVOKED", "Refresh token is invalid or revoked"⟩, ?_⟩
        unfold refresh_access_token
        rw [hv]
        dsimp only
        rw [if_neg (show ¬t.payload.sub = none by rw [hsv]; simp)]
        simp only [hrow]
      | some row =>
        by_cases hexpd : row.expires_at < now
        · refine ⟨⟨"TOKEN_EXPIRED", "Refresh token has expired"⟩, ?_⟩
          unfold refresh_access_token
          rw [hv]
          dsimp only
          rw [if_neg (show ¬t.payload.sub = none by rw [hsv]; simp)]
          simp only [hrow]
          rw [if_pos hexpd]
        · cases huser : get_user_by_apu_id users (t.payload.sub.getD "") with
          | none =>
            refine ⟨⟨"AUTHENTICATION_FAILED", "Could not validate user"⟩, ?_⟩
            unfold refresh_access_token
            rw [hv]
            dsimp only
            rw [if_neg (show ¬t.payload.sub = none by rw [hsv]; simp)]
            simp only [hrow]
            rw [if_neg hexpd]
            simp only [huser]
          | some user =>
            exact absurd ⟨hk, ha, hexp, hty, hti, hts, ⟨row, hrow, hexpd⟩,
              ⟨user, huser⟩⟩ hncond

/-- Witness for C6: a stored, unexpired refresh token yields a new access
token next to the unchanged refresh token. -/
theorem c6_witness :
    refresh_access_token "k" "HS256" 15 10 [wRefreshRow] [wUserPlain] wToken
      = Except.ok ⟨create_access_token "u1" "TP000001" "student" 15 10 "k" "HS256",
          wToken, "Bearer"⟩ :=
  (c6_refresh_token_characterization "k" "HS256" 15 10 [wRefreshRow] [wUserPlain]
    wToken).1 wRefreshRow wUserPlain (by decide) (by decide) (by decide) (by decide)
    (by decide) (by decide) (by decide) (by decide) (by decide)

/-! ## `add_skills_to_repo` claims -/

theorem specFwFoldAcc (user_id : String) (languages : List LanguageRow)
    (freshId : Nat → String) :
    ∀ (ns : List String) (fws facc : List FrameworkRow) (k : Nat),
      ns.foldl (specFwStep user_id languages freshId) (fws, facc, k)
        = ((ns.foldl (specFwStep user_id languages freshId) (fws, [], k)).1,
           facc ++ (ns.foldl (specFwStep user_id languages freshId) (fws, [], k)).2.1,
           (ns.foldl (specFwStep user_id languages freshId) (fws, [], k)).2.2)
  | [], fws, facc, k => by simp
  | n :: rest, fws, facc, k => by
    rw [List.foldl_cons, List.foldl_cons]
    cases hl : (languages.find? (fun l => sqlIlike l.name n)).isSome with
    | true =>
      have h1 : ∀ acc : List FrameworkRow,
          specFwStep user_id languages freshId (fws, acc, k) n = (fws, acc, k) := by
        intro acc
        unfold specFwStep
        rw [hl, if_pos rfl]
      rw [h1, h1]
      exact specFwFoldAcc user_id languages freshId rest fws facc k
    | false =>
      cases hf : fws.find? (fun f => sqlIlike f.name n) with
      | some fw =>
        have h1 : ∀ acc : List FrameworkRow,
            specFwStep user_id languages freshId (fws, acc, k) n
              = (fws, acc ++ [fw], k) := by
          intro acc
          unfold specFwStep
          rw [hl]
          simp only [Bool.false_eq_true, if_false, hf]
        rw [h1, h1]
        rw [specFwFoldAcc user_id languages freshId rest fws (facc ++ [fw]) k,
          specFwFoldAcc user_id languages freshId rest fws ([] ++ [fw]) k]
        simp [List.append_assoc]
      | none =>
        have h1 : ∀ acc : List FrameworkRow,
            specFwStep user_id languages freshId (fws, acc, k) n
              = (fws ++ [⟨freshId k, n, some user_id⟩],
                 acc ++ [⟨freshId k, n, some user_id⟩], k + 1) := by
          intro acc
          unfold specFwStep
          rw [hl]
          simp only [Bool.false_eq_true, if_false, hf]
        rw [h1, h1]
        have hacc1 := specFwFoldAcc user_id languages freshId rest
          (fws ++ [FrameworkRow.mk (freshId k) n (some user_id)])
          (facc ++ [FrameworkRow.mk (freshId k) n (some user_id)]) (k + 1)
        have hacc2 := specFwFoldAcc user_id languages freshId rest
          (fws ++ [FrameworkRow.mk (freshId k) n (some user_id)])
          ([] ++ [FrameworkRow.mk (freshId k) n (some user_id)]) (k + 1)
        rw [hacc1, hacc2]
        simp [List.append_assoc]

theorem cleanNamesCons (name : String) (rest : List String) :
    cleanNames (name :: rest)
      = if pyStrip name = "" then cleanNames rest
        else pyStrip name :: cleanNames rest := by
  unfold cleanNames
  rw [List.map_cons, List.filter_cons]
  by_cases h : pyStrip name = ""
  · simp [h]
  · simp [h]

/-- The `for name in set(skills)` fold of the source equals the spec-side
derivations, for arbitrary starting collections. -/
theorem processFoldEq (user_id : String) (languages : List LanguageRow)
    (freshId : Nat → String) :
    ∀ (names : List String) (fws : List FrameworkRow) (ls : List LanguageRow)
      (rfws : List FrameworkRow) (k : Nat),
      names.foldl (processSkillName user_id languages freshId) (⟨fws, ls, rfws⟩, k)
        = (⟨((cleanNames names).foldl (specFwStep user_id languages freshId)
              (fws, [], k)).1,
            ls ++ (cleanNames names).filterMap
              (fun n => languages.find? (fun l => sqlIlike l.name n)),
            rfws ++ ((cleanNames names).foldl (specFwStep user_id languages freshId)
              (fws, [], k)).2.1⟩,
           ((cleanNames names).foldl (specFwStep user_id languages freshId)
             (fws, [], k)).2.2)
  | [], fws, ls, rfws, k => by simp [cleanNames]
  | name :: rest, fws, ls, rfws, k => by
    rw [List.foldl_cons]
    by_cases h0 : pyStrip name = ""
    · have hstep : processSkillName user_id languages freshId (⟨fws, ls, rfws⟩, k) name
          = (⟨fws, ls, rfws⟩, k) := by
        unfold processSkillName
        rw [if_pos h0]
      rw [hstep, cleanNamesCons, if_pos h0]
      exact processFoldEq user_id languages freshId rest fws ls rfws k
    · rw [cleanNamesCons, if_neg h0]
      cases hl : languages.find? (fun l => sqlIlike l.name (pyStrip name)) with
      | some lang =>
        have hstep : processSkillName user_id languages freshId (⟨fws, ls, rfws⟩, k) name
            = (⟨fws, ls ++ [lang], rfws⟩, k) := by
          unfold processSkillName
          rw [if_neg h0]
          simp only [hl]
        have hspec : specFwStep user_id languages freshId (fws, [], k) (pyStrip name)
            = (fws, [], k) := by
          unfold specFwStep
          rw [hl]
          rfl
        rw [hstep, List.foldl_cons, hspec]
        simp only [List.filterMap_cons, hl]
        rw [processFoldEq user_id languages freshId rest fws (ls ++ [lang]) rfws k]
        simp [List.append_assoc]
      | none =>
        cases hf : fws.find? (fun f => sqlIlike f.name (pyStrip name)) with
        | some fw =>
          have hstep : processSkillName user_id languages freshId (⟨fws, ls, rfws⟩, k) name
              = (⟨fws, ls, rfws ++ [fw]⟩, k) := by
            unfold processSkillName
            rw [if_neg h0]
            simp only [hl, hf]
          have hspec : specFwStep user_id languages freshId (fws, [], k) (pyStrip name)
              = (fws, [] ++ [fw], k) := by
            unfold specFwStep
            rw [hl]
            simp only [Option.isSome_none, Bool.false_eq_true, if_false, hf]
          rw [hstep, List.foldl_cons, hspec]
          simp only [List.filterMap_cons, hl]
          rw [specFwFoldAcc user_id languages freshId (cleanNames rest) fws ([] ++ [fw]) k]
          rw [processFoldEq user_id languages freshId rest fws ls (rfws ++ [fw]) k]
          simp [List.append_assoc]
        | none =>
          have hstep : processSkillName user_id languages freshId (⟨fws, ls, rfws⟩, k) name
              = (⟨fws ++ [⟨freshId k, pyStrip name, some user_id⟩], ls,
                  rfws ++ [⟨freshId k, pyStrip name, some user_id⟩]⟩, k + 1) := by
            unfold processSkillName
            rw [if_neg h0]
            simp only [hl, hf]
          have hspec : specFwStep user_id languages freshId (fws, [], k) (pyStrip name)
              = (fws ++ [⟨freshId k, pyStrip name, some user_id⟩],
                 [] ++ [⟨freshId k, pyStrip name, some user_id⟩], k + 1) := by
            unfold specFwStep
            rw [hl]
            simp only [Option.isSome_none, Bool.false_eq_true, if_false, hf]
          rw [hstep, List.foldl_cons, hspec]
          simp only [List.filterMap_cons, hl]
          have hacc := specFwFoldAcc user_id languages freshId (cleanNames rest)
            (fws ++ [FrameworkRow.mk (freshId k) (pyStrip name) (some user_id)])
            ([] ++ [FrameworkRow.mk (freshId k) (pyStrip name) (some user_id)]) (k + 1)
          rw [hacc]
          have hrec := processFoldEq user_id languages freshId rest
            (fws ++ [FrameworkRow.mk (freshId k) (pyStrip name) (some user_id)]) ls
            (rfws ++ [FrameworkRow.mk (freshId k) (pyStrip name) (some user_id)]) (k + 1)
          rw [hrec]
          simp [List.append_assoc]

/-- C9 (amended): `add_skills_to_repo` replaces a repository's skills: on
an existing repository the final linked programming languages and
frameworks are exactly those derived from the distinct, whitespace-stripped,
non-empty names of `skills` — each name matched by SQL ILIKE (with the name
as the pattern, so matching is case-insensitive and `%` and `_` act as
wildcards) first against existing ProgrammingLanguage rows, then against
the frameworks visible to the session (including ones created earlier in
the same call), and otherwise persisted as a new Framework with
`added_by = user_id` — independent of the links present before the call;
on an unknown repository id it raises HTTP 404 before any mutation.
`names` enumerates `set(skills)` (Python's set iteration order is
unspecified). -/
theorem c9_add_skills_replaces (user_id rid : String) (skills names : List String)
    (languages : List LanguageRow) (frameworks : List FrameworkRow)
    (repos : List RepoRow) (freshId : Nat → String)
    (hnodup : names.Nodup) (henum : ∀ x, x ∈ names ↔ x ∈ skills) :
    (repos.find? (fun r => r.id == rid) = none →
      add_skills_to_repo user_id rid names languages frameworks repos freshId
        = Except.error 404)
    ∧ ∀ st, add_skills_to_repo user_id rid names languages frameworks repos freshId
          = Except.ok st →
        st.repo_languages = derivedLanguages languages names
        ∧ st.repo_frameworks = derivedFrameworks user_id languages freshId frameworks names
        ∧ st.frameworks = derivedFwTable user_id languages freshId frameworks names := by
  constructor
  · intro h
    unfold add_skills_to_repo
    rw [h]
  · intro st hok
    unfold add_skills_to_repo at hok
    cases hrepo : repos.find? (fun r => r.id == rid) with
    | none =>
      rw [hrepo] at hok
      cases hok
    | some repo =>
      simp only [hrepo] at hok
      rw [processFoldEq user_id languages freshId names frameworks [] [] 0] at hok
      rw [Except.ok.injEq] at hok
      subst hok
      refine ⟨?_, ?_, ?_⟩
      · simp [derivedLanguages]
      · simp [derivedFrameworks, specFwFold]
      · simp [derivedFwTable, specFwFold]

/-- C9 counterexample: with the skill name `"C_"` and an existing
programming language `"C#"`, the code links the language `C#` (ILIKE treats
`_` as a single-character wildcard), while a case-insensitive name match —
what the claim states — matches nothing and would create a new framework
instead. -/
theorem c9_counterexample_ilike_wildcard :
    add_skills_to_repo "u1" "ra" ["C_"] [⟨"pl1", "C#"⟩] [] wDb (fun _ => "f0")
      = Except.ok ⟨[], [⟨"pl1", "C#"⟩], []⟩
    ∧ ([⟨"pl1", "C#"⟩] : List LanguageRow) ≠ ciDerivedLanguages [⟨"pl1", "C#"⟩] ["C_"] := by
  constructor
  · rfl
  · decide

/-- Witness for C9: the skill list `["python", "python"]` enumerated as the
set `["python"]` replaces the links with exactly the existing language
`Python`. -/
theorem c9_witness :
    (([⟨"pl1", "Python"⟩] : List LanguageRow)
        = derivedLanguages [⟨"pl1", "Python"⟩] ["python"])
    ∧ (([] : List FrameworkRow)
        = derivedFrameworks "u1" [⟨"pl1", "Python"⟩] (fun _ => "f0") [] ["python"]) := by
  have h := (c9_add_skills_replaces "u1" "ra" ["python", "python"] ["python"]
    [⟨"pl1", "Python"⟩] [] wDb (fun _ => "f0") (by decide)
    (by intro x; simp)).2
    ⟨[], [⟨"pl1", "Python"⟩], []⟩ (by rfl)
  exact ⟨h.1, h.2.1⟩

end ApuCollab
